import Mathlib

/-!
# SELinux policy hijacking of `native/jni/init/selinux.cpp`

A shallow embedding of `MagiskInit::patch_sepolicy` and
`MagiskInit::hijack_sepolicy`.

* Every library or system call the two functions issue is recorded, in program
  order, as a `Call` together with its arguments and with the value the call
  returned.  `LOGD` lines and the directory iteration calls (`xreaddir`) are not
  recorded.
* What the calls answer comes from three sources: a file system `FileSys`
  (the state the probes made before the fork observe), a policy engine
  `Engine` (the `sepolicy` class, declared in `sepolicy.hpp`), and a
  `Handshake` record with the values the forked watcher receives from the
  kernel and from the live init process (pid, descriptors, pipe content).
* A C `char` is one Lean `Char`; a `std::string` is a Lean `String`.
-/

/-! ## Constants of the system headers -/

/-- The value of `MS_REMOUNT` in `sys/mount.h`. -/
def MS_REMOUNT : Nat := 32
/-- The value of `MS_BIND` in `sys/mount.h`. -/
def MS_BIND : Nat := 4096
/-- The value of `MNT_DETACH` in `sys/mount.h`. -/
def MNT_DETACH : Nat := 2
/-- The value of `O_RDONLY` in `fcntl.h`. -/
def O_RDONLY : Nat := 0
/-- The value of `O_WRONLY` in `fcntl.h`. -/
def O_WRONLY : Nat := 1
/-- The value of `F_OK` in `unistd.h`. -/
def F_OK : Nat := 0
/-- The value of `R_OK` in `unistd.h`. -/
def R_OK : Nat := 4

/-! ## Path constants

`SELINUXMOCK`, `SELINUX_LOAD` and `SELINUX_ENFORCE` are macros of the included
headers, not of `selinux.cpp`; they are parameters of the development. -/

/-- The three path macros `selinux.cpp` takes from the included headers. -/
structure Paths where
  SELINUXMOCK : String
  SELINUX_LOAD : String
  SELINUX_ENFORCE : String

/-- Line 40: `#define MOCK_COMPAT SELINUXMOCK "/compatible"`. -/
def MOCK_COMPAT (P : Paths) : String := P.SELINUXMOCK ++ "/compatible"
/-- Line 41: `#define MOCK_LOAD SELINUXMOCK "/load"`. -/
def MOCK_LOAD (P : Paths) : String := P.SELINUXMOCK ++ "/load"
/-- Line 42: `#define MOCK_ENFORCE SELINUXMOCK "/enforce"`. -/
def MOCK_ENFORCE (P : Paths) : String := P.SELINUXMOCK ++ "/enforce"
/-- Line 43: `#define REAL_SELINUXFS SELINUXMOCK "/fs"`. -/
def REAL_SELINUXFS (P : Paths) : String := P.SELINUXMOCK ++ "/fs"

/-! ## Recorded calls -/

/-- One call issued by the code, with its arguments and (last) its result. -/
inductive Call where
  | xmkdir (path : String) (mode : Nat)
  | access (path : String) (mode : Nat) (ok : Bool)
  | xaccess (path : String) (mode : Nat) (ok : Bool)
  | dump_preload (path : String) (mode : Nat)
  | setenv (name value : String) (overwrite : Nat)
  | mkfifo (path : String) (mode : Nat)
  | xmount (source : Option String) (target : String) (fstype : Option String)
      (flags : Nat) (data : Option String)
  | umount2 (target : String) (flags : Nat)
  | xumount2 (target : String) (flags : Nat)
  | full_read (path : String) (result : String)
  | full_read_into (path : String) (appended : String)
  | xopen_dir (path : String) (ok : Bool)
  | xfork (ret : Int)
  | xopen (path : String) (flags : Nat) (fd : Int)
  | fd_full_read (fd : Int) (result : String)
  | xwrite (fd : Int) (data : String) (count : Nat)
  | close (fd : Int)
  | from_file (path : String)
  | from_data (data : String) (len : Nat)
  | magisk_rules
  | load_rule_file (path : String)
  | load_rules (rules : String)
  | to_file (path : String) (image : String)
  | unlink (path : String)
  | link (oldpath newpath : String)
  | exit (status : Nat)
  deriving DecidableEq

/-! ## The file system -/

/-- A file system with hard links: a path names an inode, an inode holds bytes.
`readable` is the answer of `xaccess(path, R_OK) == 0`, `dir` the names
`xreaddir` yields for a directory, in the order it yields them (`none`: the
directory cannot be opened). -/
structure FileSys where
  ino : String → Option Nat
  data : Nat → String
  readable : String → Bool
  dir : String → Option (List String)
  next_ino : Nat

namespace FileSys

/-- The answer of `access(path, F_OK) == 0`. -/
def present (fs : FileSys) (path : String) : Bool := (fs.ino path).isSome

/-- Modelled from the spec: the helper `full_read(const char *)` is declared in
`utils.hpp`; the file is read as raw bytes, and a file that cannot be opened
reads as empty. -/
def full_read (fs : FileSys) (path : String) : String :=
  match fs.ino path with
  | some i => fs.data i
  | none => ""

/-- Writing a whole file (`open` with `O_CREAT | O_TRUNC`, then `write`): an
existing file keeps its inode, a new one takes the next free inode. -/
def write_file (fs : FileSys) (path : String) (bytes : String) : FileSys :=
  match fs.ino path with
  | some i => { fs with data := Function.update fs.data i bytes }
  | none =>
    { fs with
      ino := Function.update fs.ino path (some fs.next_ino)
      data := Function.update fs.data fs.next_ino bytes
      next_ino := fs.next_ino + 1 }

/-- The system call `unlink(path)`. -/
def unlink (fs : FileSys) (path : String) : FileSys :=
  { fs with ino := Function.update fs.ino path none }

/-- The system call `link(oldpath, newpath)`: fails (no change) when `oldpath`
does not exist or `newpath` does. -/
def link (fs : FileSys) (oldpath newpath : String) : FileSys :=
  match fs.ino oldpath, fs.ino newpath with
  | some i, none => { fs with ino := Function.update fs.ino newpath (some i) }
  | _, _ => fs

end FileSys

/-! ## The policy engine -/

/-- Modelled from the spec: the `sepolicy` class is declared in `sepolicy.hpp`;
its interface is: load an image from a path or from a byte buffer (`none` stands
for the null pointer), apply the baseline rules, apply a rule file or rule
text, serialize (`to_file` writes `to_bytes` of the image to a path). -/
structure Engine (Pol : Type) where
  from_file : FileSys → String → Option Pol
  from_data : String → Option Pol
  magisk_rules : Pol → Pol
  load_rule_file : FileSys → Pol → String → Pol
  load_rules : Pol → String → Pol
  to_bytes : Pol → String

/-! ## The object state and the handshake values -/

/-- The members of `MagiskInit` the two functions use; `dt_dir` is
`config->dt_dir`. -/
structure MagiskInit where
  custom_rules_dir : String
  mount_list : List String
  dt_dir : String

/-- What the kernel and the live init process hand to the code after the probes:
the result of `xfork`, the descriptors the three `xopen` calls return, the bytes
init writes into the load pipe, and the content of the enforce node when it is
read on line 155. -/
structure Handshake where
  fork_ret : Int
  fd_compat : Int
  fd_load : Int
  fd_enforce : Int
  policy : String
  enforce : String

/-- How a call of the function ends. -/
inductive Ret where
  | returned (b : Bool)
  | exited (status : Nat)
  | crashed
  deriving DecidableEq

/-- The result of `hijack_sepolicy`: the calls issued in program order, how the
function ended, and the member `mount_list` afterwards. -/
structure Outcome where
  calls : List Call
  ret : Ret
  mount_list : List String

/-- The C function `snprintf(buf, size, ...)` given the fully formatted text:
at most `size - 1` characters are stored. -/
def snprintf (size : Nat) (formatted : String) : String :=
  String.mk (formatted.data.take (size - 1))

namespace MagiskInit

/-- Lines 75 and 125: `snprintf(buf, sizeof(buf), "%s/fstab/compatible", config->dt_dir)`
with `char buf[4096]`. -/
def compat_path (self : MagiskInit) : String :=
  snprintf 4096 (self.dt_dir ++ "/fstab/compatible")

/-- Lines 59-66: the lambda `hijack`. -/
def hijack (P : Paths) : List Call :=
  [ Call.mkfifo (MOCK_LOAD P) 0o600,
    Call.xmount (some (MOCK_LOAD P)) P.SELINUX_LOAD none MS_BIND none,
    Call.mkfifo (MOCK_ENFORCE P) 0o644,
    Call.xmount (some (MOCK_ENFORCE P)) P.SELINUX_ENFORCE none MS_BIND none ]

/-- Lines 46-55: create the mock directory and deploy the preload library when
`/system/bin/init` exists. -/
def preload (P : Paths) (fs : FileSys) : List Call :=
  [ Call.xmkdir P.SELINUXMOCK 0,
    Call.access "/system/bin/init" F_OK (fs.present "/system/bin/init") ] ++
  (if fs.present "/system/bin/init" then
    [ Call.dump_preload "/dev/preload.so" 0o644,
      Call.setenv "LD_PRELOAD" "/dev/preload.so" 1 ]
   else [])

/-- Modelled from the spec: the helper `full_read(const char *, std::string &)`
is declared in `utils.hpp`; the RuleBundle is the concatenation of the
rule-file contents, so the call appends the bytes of the file to the string. -/
def full_read_into (fs : FileSys) (path : String) (str : String) : String :=
  str ++ fs.full_read path

/-- Lines 102-109: the loop over the entries of the rules directory. The first
component is the string `rules` after the loop, the second the calls issued. -/
def read_rules_loop (fs : FileSys) (custom_rules_dir : String) :
    List String → String → String × List Call
  | [], rules => (rules, [])
  | d_name :: rest, rules =>
    let rule_file := custom_rules_dir ++ "/" ++ d_name ++ "/sepolicy.rule"
    if fs.readable rule_file then
      let r := read_rules_loop fs custom_rules_dir rest
        (full_read_into fs rule_file rules ++ "\n")
      (r.1, Call.xaccess rule_file R_OK true ::
        Call.full_read_into rule_file (fs.full_read rule_file) :: r.2)
    else
      let r := read_rules_loop fs custom_rules_dir rest rules
      (r.1, Call.xaccess rule_file R_OK false :: r.2)

/-- Lines 98-111: read all custom rules into memory. -/
def read_custom_rules (fs : FileSys) (self : MagiskInit) : String × List Call :=
  if self.custom_rules_dir ≠ "" then
    match fs.dir self.custom_rules_dir with
    | some entries =>
      let r := read_rules_loop fs self.custom_rules_dir entries ""
      (r.1, Call.xopen_dir self.custom_rules_dir true :: r.2)
    | none => ("", [Call.xopen_dir self.custom_rules_dir false])
  else ("", [])

/-- Lines 144-171: once the policy object exists and the rules are applied, open
the enforce pipe, remove the hijacks, load the patched policy, write the
enforcement value, exit. `image` is what `sepol->to_file` serializes. -/
def release (P : Paths) (W : Handshake) (image : String) : List Call :=
  [ Call.xopen (MOCK_ENFORCE P) O_WRONLY W.fd_enforce,
    Call.umount2 "/init" MNT_DETACH,
    Call.xumount2 P.SELINUX_LOAD MNT_DETACH,
    Call.xumount2 P.SELINUX_ENFORCE MNT_DETACH,
    Call.xmkdir (REAL_SELINUXFS P) 0o755,
    Call.xmount (some "selinuxfs") (REAL_SELINUXFS P) (some "selinuxfs") 0 none,
    Call.to_file (REAL_SELINUXFS P ++ "/load") image,
    Call.full_read P.SELINUX_ENFORCE W.enforce,
    Call.xwrite W.fd_enforce W.enforce W.enforce.length,
    Call.close W.fd_enforce,
    Call.exit 0 ]

/-- Lines 119-132: the compat replay of the watcher, run when `dt_compat` is not
empty. -/
def compat_replay (P : Paths) (W : Handshake) (self : MagiskInit)
    (dt_compat : String) : List Call :=
  if dt_compat ≠ "" then
    [ Call.xopen (MOCK_COMPAT P) O_WRONLY W.fd_compat,
      Call.xumount2 self.compat_path MNT_DETACH ] ++
    hijack P ++
    [ Call.xwrite W.fd_compat dt_compat dt_compat.length,
      Call.close W.fd_compat ]
  else []

/-- Lines 119-171: the child of the fork. A null policy object is dereferenced on
line 140, which ends the process. -/
def watcher {Pol : Type} (E : Engine Pol) (P : Paths) (W : Handshake)
    (self : MagiskInit) (dt_compat rules : String) : List Call × Ret :=
  let c := compat_replay P W self dt_compat ++
    [ Call.xopen (MOCK_LOAD P) O_RDONLY W.fd_load,
      Call.fd_full_read W.fd_load W.policy,
      Call.close W.fd_load,
      Call.from_data W.policy W.policy.length ]
  match E.from_data W.policy with
  | none => (c, Ret.crashed)
  | some sepol =>
    let sepol := E.load_rules (E.magisk_rules sepol) rules
    (c ++ [Call.magisk_rules, Call.load_rules rules] ++
      release P W (E.to_bytes sepol), Ret.exited 0)

/-- Lines 98-172: what follows the capability probe. `calls` are the calls
issued so far, `mount_list` the member after the probe. -/
def after_probe {Pol : Type} (E : Engine Pol) (P : Paths) (fs : FileSys)
    (W : Handshake) (self : MagiskInit) (dt_compat : String)
    (mount_list : List String) (calls : List Call) : Outcome :=
  let r := read_custom_rules fs self
  let calls := calls ++ r.2 ++ [Call.xfork W.fork_ret]
  if W.fork_ret ≠ 0 then
    ⟨calls, Ret.returned true, mount_list⟩
  else
    let w := watcher E P W self dt_compat r.1
    ⟨calls ++ w.1, w.2, mount_list⟩

/-- Lines 45-172: `bool MagiskInit::hijack_sepolicy()`. -/
def hijack_sepolicy {Pol : Type} (E : Engine Pol) (P : Paths) (fs : FileSys)
    (W : Handshake) (self : MagiskInit) : Outcome :=
  let c0 := preload P fs
  if fs.present P.SELINUX_ENFORCE = false then
    let buf := self.compat_path
    let dt_compat := fs.full_read buf
    let c1 := c0 ++
      [ Call.access P.SELINUX_ENFORCE F_OK false, Call.full_read buf dt_compat ]
    if dt_compat = "" then
      ⟨c1, Ret.returned false, self.mount_list⟩
    else
      let c2 := c1 ++
        [ Call.xmount none "/proc" none MS_REMOUNT (some "hidepid=2,gid=3009") ]
      let mount_list :=
        self.mount_list.filter (fun s => !(s == "/proc" || s == "/sys"))
      let c3 := c2 ++
        [ Call.mkfifo (MOCK_COMPAT P) 0o444,
          Call.xmount (some (MOCK_COMPAT P)) buf none MS_BIND none ]
      after_probe E P fs W self dt_compat mount_list c3
  else
    after_probe E P fs W self "" self.mount_list
      (c0 ++ Call.access P.SELINUX_ENFORCE F_OK true :: hijack P)

end MagiskInit

/-- The result of `patch_sepolicy`: the calls issued in program order, the policy
object that was serialized, and the file system afterwards. -/
structure Patched (Pol : Type) where
  calls : List Call
  sepol : Pol
  fs : FileSys

namespace MagiskInit

/-- Lines 20-26: the loop over the entries of the rules directory. The first
component is the policy object after the loop, the second the calls issued. -/
def patch_rules_loop {Pol : Type} (E : Engine Pol) (fs : FileSys)
    (custom_rules_dir : String) : List String → Pol → Pol × List Call
  | [], sepol => (sepol, [])
  | d_name :: rest, sepol =>
    let rule := custom_rules_dir ++ "/" ++ d_name ++ "/sepolicy.rule"
    if fs.readable rule then
      let r := patch_rules_loop E fs custom_rules_dir rest
        (E.load_rule_file fs sepol rule)
      (r.1, Call.xaccess rule R_OK true :: Call.load_rule_file rule :: r.2)
    else
      let r := patch_rules_loop E fs custom_rules_dir rest sepol
      (r.1, Call.xaccess rule R_OK false :: r.2)

/-- Lines 17-28: apply the custom rules. -/
def patch_custom_rules {Pol : Type} (E : Engine Pol) (fs : FileSys)
    (self : MagiskInit) (sepol : Pol) : Pol × List Call :=
  if self.custom_rules_dir ≠ "" then
    match fs.dir self.custom_rules_dir with
    | some entries =>
      let r := patch_rules_loop E fs self.custom_rules_dir entries sepol
      (r.1, Call.xopen_dir self.custom_rules_dir true :: r.2)
    | none => (sepol, [Call.xopen_dir self.custom_rules_dir false])
  else (sepol, [])

/-- Lines 11-38: `void MagiskInit::patch_sepolicy(const char *in, const char *out)`.
The result is `none` when `sepolicy::from_file` yields the null pointer, which
line 15 dereferences. -/
def patch_sepolicy {Pol : Type} (E : Engine Pol) (fs : FileSys)
    (self : MagiskInit) (inp out : String) : Option (Patched Pol) :=
  match E.from_file fs inp with
  | none => none
  | some sepol =>
    let sepol := E.magisk_rules sepol
    let r := patch_custom_rules E fs self sepol
    let fs1 := fs.write_file out (E.to_bytes r.1)
    let c := [Call.from_file inp, Call.magisk_rules] ++ r.2 ++
      [ Call.to_file out (E.to_bytes r.1),
        Call.access "/sepolicy_debug" F_OK (fs1.present "/sepolicy_debug") ]
    if fs1.present "/sepolicy_debug" then
      some ⟨c ++ [Call.unlink "/sepolicy_debug",
                  Call.link "/sepolicy" "/sepolicy_debug"],
            r.1,
            (fs1.unlink "/sepolicy_debug").link "/sepolicy" "/sepolicy_debug"⟩
    else
      some ⟨c, r.1, fs1⟩

end MagiskInit

/-! ## Descriptors and pipes

Which file a descriptor names is found by replaying the `xopen` and `close`
calls of a trace. -/

/-- A descriptor table: the path a descriptor was opened on. -/
abbrev FdTable := Int → Option String

/-- The descriptor table in which no descriptor is open. -/
def noFds : FdTable := fun _ => none

/-- The effect of one call on the descriptor table: a successful `xopen` binds
the descriptor it returns, `close` releases it. -/
def fdStep (tbl : FdTable) : Call → FdTable
  | Call.xopen path _ fd => if 0 ≤ fd then Function.update tbl fd (some path) else tbl
  | Call.close fd => Function.update tbl fd none
  | _ => tbl

/-- The file a call writes to: for `xwrite`, the path its descriptor names. -/
def writeTarget (tbl : FdTable) : Call → Option String
  | Call.xwrite fd _ _ => tbl fd
  | _ => none

/-- Every call of a trace paired with the file it writes to. -/
def resolve (tbl : FdTable) : List Call → List (Call × Option String)
  | [] => []
  | c :: cs => (c, writeTarget tbl c) :: resolve (fdStep tbl c) cs

/-- The bytes a call pushes into the file it writes to. -/
def writtenBytes : Call → String
  | Call.xwrite _ data count => String.mk (data.data.take count)
  | _ => ""

/-- The content a reader of the pipe at `path` receives from a trace: the bytes
of the writes to it, in order. -/
def pipeContent (path : String) (cs : List Call) : String :=
  String.join (((resolve noFds cs).filter
    (fun x => x.2 = some path)).map (fun x => writtenBytes x.1))

/-! ## The mount table -/

/-- One mount: source, file system type, flags and options. -/
structure MountEntry where
  source : Option String
  fstype : Option String
  flags : Nat
  data : Option String
  deriving DecidableEq

/-- The mount namespace: for every mount point the stack of mounts on it, the
topmost first. -/
abbrev MountTable := String → List MountEntry

/-- The effect of a mount call on the stack of its target. `MS_REMOUNT` changes
the flags and options of the topmost mount; any other mount (bind mounts among
them) stacks a new mount; a detaching unmount removes the topmost mount. -/
inductive MountOp where
  | push (e : MountEntry)
  | remount (flags : Nat) (data : Option String)
  | pop
  deriving DecidableEq

/-- The effect of a mount operation on one stack. -/
def MountOp.apply : MountOp → List MountEntry → List MountEntry
  | MountOp.push e, st => e :: st
  | MountOp.remount flags data, e :: st => { e with flags := flags, data := data } :: st
  | MountOp.remount _ _, [] => []
  | MountOp.pop, st => st.tail

/-- The mount point and operation of a call, `none` for calls that leave the
mount table alone. A mount call is a remount when the bit `MS_REMOUNT` is set in
its flags. -/
def Call.mountOp : Call → Option (String × MountOp)
  | Call.xmount source target fstype flags data =>
    if flags / MS_REMOUNT % 2 = 1 then some (target, MountOp.remount flags data)
    else some (target, MountOp.push ⟨source, fstype, flags, data⟩)
  | Call.umount2 target _ => some (target, MountOp.pop)
  | Call.xumount2 target _ => some (target, MountOp.pop)
  | _ => none

/-- A step of the boot as the mount namespace sees it: a call of the controller
or a mount performed by the live init process. -/
inductive Step where
  | ctl (c : Call)
  | init (target : String) (e : MountEntry)
  deriving DecidableEq

/-- The mount point and operation of a step. -/
def Step.mountOp : Step → Option (String × MountOp)
  | Step.ctl c => c.mountOp
  | Step.init target e => some (target, MountOp.push e)

/-- The effect of a step on the mount table. -/
def Step.apply (T : MountTable) (s : Step) : MountTable :=
  match s.mountOp with
  | some (target, op) => Function.update T target (op.apply (T target))
  | none => T

/-- The mount table after a schedule of steps. -/
def runSchedule (T : MountTable) (sched : List Step) : MountTable :=
  sched.foldl Step.apply T

/-- The calls of the controller in a schedule. -/
def ctlCalls (sched : List Step) : List Call :=
  sched.filterMap (fun s => match s with | Step.ctl c => some c | Step.init _ _ => none)

/-- The schedule of the same boot without the controller: the mounts of init
alone. -/
def initOnly (sched : List Step) : List Step :=
  sched.filter (fun s => match s with | Step.ctl _ => false | Step.init _ _ => true)

/-- The mount points init mounts on in a schedule. -/
def initTargets (sched : List Step) : List String :=
  sched.filterMap (fun s => match s with | Step.ctl _ => none | Step.init t _ => some t)
/-- Calls that touch neither the mount table nor a descriptor nor a pipe, start
no process and talk to no policy engine: directory creation, the access probes,
the preload deployment and the reads of the rule files. -/
def Call.isInert : Call → Bool
  | Call.xmkdir _ _ => true
  | Call.access _ _ _ => true
  | Call.xaccess _ _ _ => true
  | Call.dump_preload _ _ => true
  | Call.setenv _ _ _ => true
  | Call.full_read _ _ => true
  | Call.full_read_into _ _ => true
  | Call.xopen_dir _ _ => true
  | _ => false

/-! ## The capability probe -/

/-- The three outcomes of the capability probe. -/
inductive Strategy where
  | direct
  | compat_detour
  | no_hijack
  deriving DecidableEq

/-- The strategy the two observations select: the enforce node exists, the
device-tree fragment is not empty. -/
def Strategy.select (node_exists fragment_nonempty : Bool) : Strategy :=
  if node_exists then Strategy.direct
  else if fragment_nonempty then Strategy.compat_detour
  else Strategy.no_hijack

/-- The bind mounts (source, target) a strategy installs before the fork;
`compat` is the path `<dt_dir>/fstab/compatible`. -/
def Strategy.installs (P : Paths) (compat : String) : Strategy → List (String × String)
  | Strategy.direct => [(MOCK_LOAD P, P.SELINUX_LOAD), (MOCK_ENFORCE P, P.SELINUX_ENFORCE)]
  | Strategy.compat_detour => [(MOCK_COMPAT P, compat)]
  | Strategy.no_hijack => []

/-- Whether a call is `xfork`. -/
def Call.isFork : Call → Bool
  | Call.xfork _ => true
  | _ => false

/-- Source and target of a call that is a bind mount. -/
def Call.bindMount : Call → Option (String × String)
  | Call.xmount (some source) target _ flags _ =>
    if flags = MS_BIND then some (source, target) else none
  | _ => none

/-- The bind mounts a trace performs before its first `xfork`. -/
def bindMountsBeforeFork (cs : List Call) : List (String × String) :=
  (cs.takeWhile (fun c => !c.isFork)).filterMap Call.bindMount

/-! ## The RuleBundle of the specification -/

/-- The rule fragment of an entry of the rules root: `<root>/<entry>/sepolicy.rule`. -/
def rule_path (root d_name : String) : String :=
  root ++ "/" ++ d_name ++ "/sepolicy.rule"

/-- The RuleBundle as the specification words it: over the entries whose
fragment is readable, in discovery order, the content of the fragment followed
by a newline, concatenated. -/
def RuleBundle (fs : FileSys) (root : String) (entries : List String) : String :=
  String.join ((entries.filter (fun d => fs.readable (rule_path root d))).map
    (fun d => fs.full_read (rule_path root d) ++ "\n"))

/-- The RuleBundle of a rules root: empty when the root is not configured or
cannot be opened. -/
def RuleBundle.ofRoot (fs : FileSys) (root : String) : String :=
  if root = "" then ""
  else match fs.dir root with
    | some entries => RuleBundle fs root entries
    | none => ""

/-! ## Sample worlds -/

namespace Sample

/-- Sample values of the three path macros. -/
def paths : Paths :=
  ⟨"/.magisk/selinux", "/sys/fs/selinux/load", "/sys/fs/selinux/enforce"⟩

/-- A policy engine that keeps a log of what was applied to the image. -/
def engine : Engine (List String) where
  from_file := fun fs path => if fs.present path then some [fs.full_read path] else none
  from_data := fun data => if data = "" then none else some [data]
  magisk_rules := fun pol => pol ++ ["magisk"]
  load_rule_file := fun fs pol path => pol ++ [fs.full_read path]
  load_rules := fun pol rules => pol ++ [rules]
  to_bytes := fun pol => String.intercalate ";" pol

/-- A device whose enforce node exists; the rules root `/rules` has the entries
`a` and `b`, of which only `b` holds a readable fragment, with text `R1`. -/
def fsDirect : FileSys where
  ino := fun path =>
    if path = "/sys/fs/selinux/enforce" then some 1
    else if path = "/rules/b/sepolicy.rule" then some 2
    else none
  data := fun i => if i = 2 then "R1" else ""
  readable := fun path => path = "/rules/b/sepolicy.rule"
  dir := fun path => if path = "/rules" then some ["a", "b"] else none
  next_ino := 3

/-- A device without enforce node whose device-tree fragment is `vendor,fstab`. -/
def fsDetour : FileSys where
  ino := fun path =>
    if path = "/proc/device-tree/firmware/android/fstab/compatible" then some 1 else none
  data := fun i => if i = 1 then "vendor,fstab" else ""
  readable := fun _ => false
  dir := fun _ => none
  next_ino := 2

/-- A device with neither enforce node nor device-tree fragment. -/
def fsNone : FileSys where
  ino := fun _ => none
  data := fun _ => ""
  readable := fun _ => false
  dir := fun _ => none
  next_ino := 0

/-- A device with a policy `/sepolicy` and the debug alias `/sepolicy_debug`. -/
def fsAlias : FileSys where
  ino := fun path =>
    if path = "/sepolicy" then some 1
    else if path = "/sepolicy_debug" then some 2
    else none
  data := fun i => if i = 1 then "STOCK" else if i = 2 then "DEBUG" else ""
  readable := fun _ => false
  dir := fun _ => none
  next_ino := 3

/-- The handshake of a watcher: `xfork` returns 0, every `xopen` returns
descriptor 3, init writes the image `POLICY`, the enforce node reads `1`. -/
def handshake : Handshake := ⟨0, 3, 3, 3, "POLICY", "1"⟩

/-- An object with rules root `/rules` and three pending mounts. -/
def magiskInit : MagiskInit :=
  ⟨"/rules", ["/proc", "/sys", "/dev"], "/proc/device-tree/firmware/android"⟩

end Sample

/-! ## Descriptors of a trace -/

/-- Whether a call opens, closes or writes a descriptor. -/
def Call.usesFd : Call → Bool
  | Call.xopen _ _ _ => true
  | Call.close _ => true
  | Call.xwrite _ _ _ => true
  | _ => false

/-- Lines 135-141 as `watcher` issues them when the image parses: read the policy
image from the load pipe, build the policy object, apply the baseline rules and
the rule blob. The name serves the statements about the trace of the watcher. -/
def MagiskInit.intercept (P : Paths) (W : Handshake) (rules : String) : List Call :=
  [ Call.xopen (MOCK_LOAD P) O_RDONLY W.fd_load,
    Call.fd_full_read W.fd_load W.policy,
    Call.close W.fd_load,
    Call.from_data W.policy W.policy.length,
    Call.magisk_rules,
    Call.load_rules rules ]

/-! ## HijackPoints and mount points -/

/-- The mount operations a trace performs on the mount point `t`, in order. -/
def opsOn (t : String) (cs : List Call) : List MountOp :=
  cs.filterMap (fun c =>
    match c.mountOp with
    | some (target, op) => if target = t then some op else none
    | none => none)

/-- The mount points the controller touches are six different paths: `/init`,
`/proc`, the private mount point of selinuxfs, the load node, the enforce node
and the device-tree compat node. -/
def DistinctTargets (P : Paths) (self : MagiskInit) : Prop :=
  ["/init", "/proc", REAL_SELINUXFS P, P.SELINUX_LOAD, P.SELINUX_ENFORCE,
    self.compat_path].Nodup

/-- The bind mount of a pipe over a node, as an entry of the mount table. -/
def hijackMount (pipe : String) : MountEntry := ⟨some pipe, none, MS_BIND, none⟩

/-! ## The mount table at the exit of the watcher -/

/-- The mount operations a schedule performs on the mount point `t`, in order. -/
def stepOps (t : String) (sched : List Step) : List MountOp :=
  sched.filterMap (fun s =>
    match s.mountOp with
    | some (target, op) => if target = t then some op else none
    | none => none)

/-- The effect of a list of mount operations on one stack. -/
def applyOps (ops : List MountOp) (st : List MountEntry) : List MountEntry :=
  ops.foldl (fun st op => op.apply st) st

/-- The mount table after a schedule is the table of the same boot without the
controller. -/
def RestoredAtExit (T0 : MountTable) (sched : List Step) : Prop :=
  runSchedule T0 sched = runSchedule T0 (initOnly sched)

/-- The mount of selinuxfs on the private mount point (line 153). -/
def selinuxfsMount : MountEntry := ⟨some "selinuxfs", some "selinuxfs", 0, none⟩

/-- The mount table in which nothing is mounted. -/
def noMounts : MountTable := fun _ => []

namespace Sample

/-- The run of the watcher of a direct hijack. -/
def directOutcome : Outcome :=
  magiskInit.hijack_sepolicy engine paths fsDirect handshake

/-- The run of the watcher of a compat detour. -/
def detourOutcome : Outcome :=
  magiskInit.hijack_sepolicy engine paths fsDetour handshake

/-- The run on a device with neither enforce node nor fragment. -/
def noneOutcome : Outcome :=
  magiskInit.hijack_sepolicy engine paths fsNone handshake

/-- The handshake of a watcher to which init hands an image the engine cannot
parse: the sample engine yields the null pointer for the empty image. -/
def handshakeUnparsable : Handshake := ⟨0, 3, 3, 3, "", "1"⟩

/-- The run of the watcher of a direct hijack whose image does not parse. -/
def crashOutcome : Outcome :=
  magiskInit.hijack_sepolicy engine paths fsDirect handshakeUnparsable

/-- The schedule of a direct hijack during which init mounts nothing. -/
def directSchedule : List Step :=
  directOutcome.calls.map Step.ctl

/-- The schedule of a compat detour during which init mounts selinuxfs on
`/sys/fs/selinux` after the fork. -/
def detourSchedule : List Step :=
  (detourOutcome.calls.take 9).map Step.ctl ++
  Step.init "/sys/fs/selinux" selinuxfsMount ::
  (detourOutcome.calls.drop 9).map Step.ctl

end Sample

/-! ## Auxiliary facts -/

theorem read_rules_loop_inert (fs : FileSys) (root : String) (entries : List String) :
    ∀ rules, ∀ c ∈ (MagiskInit.read_rules_loop fs root entries rules).2, c.isInert = true := by
  induction entries with
  | nil => intro rules c hc; simp [MagiskInit.read_rules_loop] at hc
  | cons d rest ih =>
    intro rules c hc
    simp only [MagiskInit.read_rules_loop] at hc
    split at hc
    · simp only [List.mem_cons] at hc
      rcases hc with h | h | h
      · subst h; rfl
      · subst h; rfl
      · exact ih _ c h
    · simp only [List.mem_cons] at hc
      rcases hc with h | h
      · subst h; rfl
      · exact ih _ c h

theorem read_custom_rules_inert (fs : FileSys) (self : MagiskInit) :
    ∀ c ∈ (self.read_custom_rules fs).2, c.isInert = true := by
  intro c hc
  unfold MagiskInit.read_custom_rules at hc
  split at hc
  · split at hc
    · simp only [List.mem_cons] at hc
      rcases hc with h | h
      · subst h; rfl
      · exact read_rules_loop_inert _ _ _ _ c h
    · simp at hc; subst hc; rfl
  · simp at hc

theorem preload_inert (P : Paths) (fs : FileSys) :
    ∀ c ∈ MagiskInit.preload P fs, c.isInert = true := by
  intro c hc
  unfold MagiskInit.preload at hc
  split at hc
  · simp at hc
    rcases hc with h | h | h | h <;> subst h <;> rfl
  · simp at hc
    rcases hc with h | h <;> subst h <;> rfl

theorem inert_not_fork {c : Call} (h : c.isInert = true) : (!c.isFork) = true := by
  cases c <;> simp_all [Call.isInert, Call.isFork]

theorem inert_bindMount {c : Call} (h : c.isInert = true) : c.bindMount = none := by
  cases c <;> simp_all [Call.isInert, Call.bindMount]

theorem inert_mountOp {c : Call} (h : c.isInert = true) : c.mountOp = none := by
  cases c <;> simp_all [Call.isInert, Call.mountOp]

theorem filterMap_bindMount_inert (cs : List Call) (h : ∀ c ∈ cs, c.isInert = true) :
    cs.filterMap Call.bindMount = [] := by
  rw [List.filterMap_eq_nil_iff]
  intro c hc
  exact inert_bindMount (h c hc)

theorem takeWhile_inert_append (cs rest : List Call) (h : ∀ c ∈ cs, c.isInert = true) :
    (cs ++ rest).takeWhile (fun c => !c.isFork) = cs ++ rest.takeWhile (fun c => !c.isFork) :=
  List.takeWhile_append_of_pos (fun c hc => inert_not_fork (h c hc))

theorem takeWhile_before_fork (pre rest : List Call) (r : Int)
    (h : ∀ c ∈ pre, c.isFork = false) :
    (pre ++ Call.xfork r :: rest).takeWhile (fun c => !c.isFork) = pre := by
  rw [List.takeWhile_append_of_pos (fun c hc => by simp [h c hc])]
  simp [List.takeWhile_cons, Call.isFork]

theorem inert_isFork {c : Call} (h : c.isInert = true) : c.isFork = false := by
  cases c <;> simp_all [Call.isInert, Call.isFork]

/-- The calls issued before the fork when the enforce node exists. -/
theorem before_fork_direct (P : Paths) (fs : FileSys) (self : MagiskInit) :
    ∀ c ∈ MagiskInit.preload P fs ++
        (Call.access P.SELINUX_ENFORCE F_OK true :: MagiskInit.hijack P) ++
        (self.read_custom_rules fs).2, c.isFork = false := by
  intro c hc
  simp only [List.mem_append, List.mem_cons, MagiskInit.hijack, List.not_mem_nil,
    or_false] at hc
  rcases hc with (hc | hc | hc | hc | hc | hc) | hc
  · exact inert_isFork (preload_inert P fs c hc)
  all_goals first
    | (subst hc; rfl)
    | exact inert_isFork (read_custom_rules_inert fs self c hc)

/-- The calls issued before the fork on the compat detour. -/
theorem before_fork_detour (P : Paths) (fs : FileSys) (self : MagiskInit) (dt : String) :
    ∀ c ∈ MagiskInit.preload P fs ++
        [ Call.access P.SELINUX_ENFORCE F_OK false,
          Call.full_read self.compat_path dt,
          Call.xmount none "/proc" none MS_REMOUNT (some "hidepid=2,gid=3009"),
          Call.mkfifo (MOCK_COMPAT P) 0o444,
          Call.xmount (some (MOCK_COMPAT P)) self.compat_path none MS_BIND none ] ++
        (self.read_custom_rules fs).2, c.isFork = false := by
  intro c hc
  simp only [List.mem_append, List.mem_cons, List.not_mem_nil,
    or_false] at hc
  rcases hc with (hc | hc | hc | hc | hc | hc) | hc
  · exact inert_isFork (preload_inert P fs c hc)
  all_goals first
    | (subst hc; rfl)
    | exact inert_isFork (read_custom_rules_inert fs self c hc)

/-- The calls of a run whose probe finds the enforce node. -/
theorem calls_direct {Pol : Type} (E : Engine Pol) (P : Paths) (fs : FileSys)
    (W : Handshake) (self : MagiskInit) (h : fs.present P.SELINUX_ENFORCE = true) :
    (self.hijack_sepolicy E P fs W).calls =
      (MagiskInit.preload P fs ++
        (Call.access P.SELINUX_ENFORCE F_OK true :: MagiskInit.hijack P) ++
        (self.read_custom_rules fs).2) ++
      (Call.xfork W.fork_ret ::
        if W.fork_ret ≠ 0 then []
        else (MagiskInit.watcher E P W self "" (self.read_custom_rules fs).1).1) := by
  unfold MagiskInit.hijack_sepolicy MagiskInit.after_probe
  by_cases hf : W.fork_ret = 0 <;> simp [h, hf]

/-- The calls of a run whose probe finds neither the enforce node nor an empty
fragment. -/
theorem calls_detour {Pol : Type} (E : Engine Pol) (P : Paths) (fs : FileSys)
    (W : Handshake) (self : MagiskInit) (h : fs.present P.SELINUX_ENFORCE = false)
    (hdt : fs.full_read self.compat_path ≠ "") :
    (self.hijack_sepolicy E P fs W).calls =
      (MagiskInit.preload P fs ++
        [ Call.access P.SELINUX_ENFORCE F_OK false,
          Call.full_read self.compat_path (fs.full_read self.compat_path),
          Call.xmount none "/proc" none MS_REMOUNT (some "hidepid=2,gid=3009"),
          Call.mkfifo (MOCK_COMPAT P) 0o444,
          Call.xmount (some (MOCK_COMPAT P)) self.compat_path none MS_BIND none ] ++
        (self.read_custom_rules fs).2) ++
      (Call.xfork W.fork_ret ::
        if W.fork_ret ≠ 0 then []
        else (MagiskInit.watcher E P W self (fs.full_read self.compat_path)
          (self.read_custom_rules fs).1).1) := by
  unfold MagiskInit.hijack_sepolicy MagiskInit.after_probe
  by_cases hf : W.fork_ret = 0 <;> simp [h, hf, hdt]

/-- The calls of a run whose probe finds neither the enforce node nor a
fragment. -/
theorem calls_none {Pol : Type} (E : Engine Pol) (P : Paths) (fs : FileSys)
    (W : Handshake) (self : MagiskInit) (h : fs.present P.SELINUX_ENFORCE = false)
    (hdt : fs.full_read self.compat_path = "") :
    (self.hijack_sepolicy E P fs W).calls =
      MagiskInit.preload P fs ++
      [ Call.access P.SELINUX_ENFORCE F_OK false, Call.full_read self.compat_path "" ] := by
  unfold MagiskInit.hijack_sepolicy
  simp [h, hdt]

/-- How a run ends. -/
theorem ret_eq {Pol : Type} (E : Engine Pol) (P : Paths) (fs : FileSys)
    (W : Handshake) (self : MagiskInit) :
    (self.hijack_sepolicy E P fs W).ret =
      if fs.present P.SELINUX_ENFORCE = false ∧ fs.full_read self.compat_path = "" then
        Ret.returned false
      else if W.fork_ret ≠ 0 then Ret.returned true
      else match E.from_data W.policy with
        | none => Ret.crashed
        | some _ => Ret.exited 0 := by
  unfold MagiskInit.hijack_sepolicy MagiskInit.after_probe MagiskInit.watcher
  by_cases h : fs.present P.SELINUX_ENFORCE = false <;>
  by_cases hdt : fs.full_read self.compat_path = "" <;>
  by_cases hf : W.fork_ret = 0 <;> simp [h, hdt, hf] <;>
  cases E.from_data W.policy <;> simp

/-! ## The capability probe: claims C2 and C3 -/

/-- C2: the strategy `hijack_sepolicy` takes is `Strategy.select` of the two
observations (enforce node exists, device-tree fragment not empty): the bind
mounts performed before the fork are exactly the ones of that strategy, an
engaged strategy forks and its parent returns `true`, the strategy `no_hijack`
returns `false` without forking, and the call returns `false` exactly when the
node is absent and the fragment empty. -/
theorem hijack_sepolicy_strategy {Pol : Type} (E : Engine Pol) (P : Paths)
    (fs : FileSys) (W : Handshake) (self : MagiskInit) :
    bindMountsBeforeFork (self.hijack_sepolicy E P fs W).calls =
      (Strategy.select (fs.present P.SELINUX_ENFORCE)
        (decide (fs.full_read self.compat_path ≠ ""))).installs P self.compat_path ∧
    (Strategy.select (fs.present P.SELINUX_ENFORCE)
        (decide (fs.full_read self.compat_path ≠ "")) ≠ Strategy.no_hijack →
      Call.xfork W.fork_ret ∈ (self.hijack_sepolicy E P fs W).calls ∧
      (W.fork_ret ≠ 0 → (self.hijack_sepolicy E P fs W).ret = Ret.returned true)) ∧
    (Strategy.select (fs.present P.SELINUX_ENFORCE)
        (decide (fs.full_read self.compat_path ≠ "")) = Strategy.no_hijack →
      (self.hijack_sepolicy E P fs W).ret = Ret.returned false ∧
      ∀ c ∈ (self.hijack_sepolicy E P fs W).calls, c.isFork = false) ∧
    ((self.hijack_sepolicy E P fs W).ret = Ret.returned false ↔
      fs.present P.SELINUX_ENFORCE = false ∧ fs.full_read self.compat_path = "") := by
  have hpre := preload_inert P fs
  have hrc := read_custom_rules_inert fs self
  refine ⟨?_, ?_, ?_, ?_⟩
  · by_cases h : fs.present P.SELINUX_ENFORCE = true
    · rw [calls_direct E P fs W self h]
      unfold bindMountsBeforeFork
      rw [takeWhile_before_fork _ _ _ (before_fork_direct P fs self)]
      simp [List.filterMap_append, MagiskInit.hijack,
        filterMap_bindMount_inert _ hpre, filterMap_bindMount_inert _ hrc,
        List.filterMap_cons, Call.bindMount, h, Strategy.select, Strategy.installs]
    · have h' : fs.present P.SELINUX_ENFORCE = false := by simpa using h
      by_cases hdt : fs.full_read self.compat_path = ""
      · rw [calls_none E P fs W self h' hdt]
        unfold bindMountsBeforeFork
        rw [takeWhile_inert_append _ _ hpre]
        simp [List.takeWhile_cons, Call.isFork, List.filterMap_append,
          filterMap_bindMount_inert _ hpre,
          List.filterMap_cons, Call.bindMount, h', hdt, Strategy.select, Strategy.installs]
      · rw [calls_detour E P fs W self h' hdt]
        unfold bindMountsBeforeFork
        rw [takeWhile_before_fork _ _ _ (before_fork_detour P fs self _)]
        simp [List.filterMap_append,
          filterMap_bindMount_inert _ hpre, filterMap_bindMount_inert _ hrc,
          List.filterMap_cons, Call.bindMount, h', hdt, Strategy.select, Strategy.installs,
          MS_REMOUNT, MS_BIND]
  · intro hs
    by_cases h : fs.present P.SELINUX_ENFORCE = true
    · refine ⟨?_, fun hf => ?_⟩
      · rw [calls_direct E P fs W self h]; simp
      · rw [ret_eq]; simp [h, hf]
    · have h' : fs.present P.SELINUX_ENFORCE = false := by simpa using h
      have hdt : fs.full_read self.compat_path ≠ "" := by
        intro hdt; simp [Strategy.select, h', hdt] at hs
      refine ⟨?_, fun hf => ?_⟩
      · rw [calls_detour E P fs W self h' hdt]; simp
      · rw [ret_eq]; simp [h', hf, hdt]
  · intro hs
    have h' : fs.present P.SELINUX_ENFORCE = false := by
      cases h : fs.present P.SELINUX_ENFORCE
      · rfl
      · simp [Strategy.select, h] at hs
    have hdt : fs.full_read self.compat_path = "" := by
      by_contra hdt; simp [Strategy.select, h', hdt] at hs
    refine ⟨by rw [ret_eq]; simp [h', hdt], ?_⟩
    rw [calls_none E P fs W self h' hdt]
    intro c hc
    simp only [List.mem_append, List.mem_cons, List.mem_singleton, List.not_mem_nil,
      or_false] at hc
    rcases hc with hc | hc | hc
    · have := inert_not_fork (hpre c hc); simpa using this
    · subst hc; rfl
    · subst hc; rfl
  · rw [ret_eq]
    by_cases h : fs.present P.SELINUX_ENFORCE = false ∧ fs.full_read self.compat_path = ""
    · simp [h]
    · rw [if_neg h]
      constructor
      · intro hr
        exfalso
        by_cases hf : W.fork_ret = 0
        · simp only [hf, ne_eq, not_true_eq_false, if_false] at hr
          cases hE : E.from_data W.policy <;> simp [hE] at hr
        · simp [hf] at hr
      · intro hh; exact absurd hh h

/-- C3: with the enforce node absent and the device-tree fragment empty,
`hijack_sepolicy` returns `false`, issues no mount, remount or unmount call, no
`mkfifo` and no `xfork`, and leaves `mount_list` as it was. -/
theorem hijack_sepolicy_no_hijack_frame {Pol : Type} (E : Engine Pol) (P : Paths)
    (fs : FileSys) (W : Handshake) (self : MagiskInit)
    (hnode : fs.present P.SELINUX_ENFORCE = false)
    (hfrag : fs.full_read self.compat_path = "") :
    (self.hijack_sepolicy E P fs W).ret = Ret.returned false ∧
    (self.hijack_sepolicy E P fs W).mount_list = self.mount_list ∧
    ∀ c ∈ (self.hijack_sepolicy E P fs W).calls,
      c.mountOp = none ∧ (∀ path mode, c ≠ Call.mkfifo path mode) ∧
      (∀ ret, c ≠ Call.xfork ret) := by
  refine ⟨by rw [ret_eq]; simp [hnode, hfrag], ?_, ?_⟩
  · unfold MagiskInit.hijack_sepolicy; simp [hnode, hfrag]
  · rw [calls_none E P fs W self hnode hfrag]
    have key : ∀ c : Call, c.isInert = true →
        c.mountOp = none ∧ (∀ path mode, c ≠ Call.mkfifo path mode) ∧
        (∀ ret, c ≠ Call.xfork ret) := by
      intro c hc
      cases c <;> simp_all [Call.isInert, Call.mountOp]
    intro c hc
    simp only [List.mem_append, List.mem_cons, List.mem_singleton, List.not_mem_nil,
      or_false] at hc
    rcases hc with hc | hc | hc
    · exact key c (preload_inert P fs c hc)
    · subst hc; exact key _ rfl
    · subst hc; exact key _ rfl

/-! ## The rule aggregation: claim C4 -/

theorem string_join_cons (s : String) (ss : List String) :
    String.join (s :: ss) = s ++ String.join ss := by
  rw [String.join_eq, String.join_eq]
  apply String.ext
  simp

theorem read_rules_loop_bundle (fs : FileSys) (root : String) (entries : List String) :
    ∀ rules, (MagiskInit.read_rules_loop fs root entries rules).1 =
      rules ++ RuleBundle fs root entries := by
  induction entries with
  | nil => intro rules; simp [MagiskInit.read_rules_loop, RuleBundle, String.join]
  | cons d rest ih =>
    intro rules
    simp only [MagiskInit.read_rules_loop]
    have hp : root ++ "/" ++ d ++ "/sepolicy.rule" = rule_path root d := rfl
    rw [hp]
    by_cases h : fs.readable (rule_path root d) = true
    · rw [if_pos h, ih]
      simp only [RuleBundle, List.filter_cons, h, if_true, List.map_cons, string_join_cons,
        MagiskInit.full_read_into, String.append_assoc]
    · rw [if_neg h, ih]
      simp only [RuleBundle, List.filter_cons, h, if_false]
      rfl

theorem read_custom_rules_ofRoot (fs : FileSys) (self : MagiskInit) :
    (self.read_custom_rules fs).1 = RuleBundle.ofRoot fs self.custom_rules_dir := by
  unfold MagiskInit.read_custom_rules RuleBundle.ofRoot
  by_cases h : self.custom_rules_dir = ""
  · simp [h]
  · simp only [ne_eq, h, not_false_eq_true, if_true, if_false]
    cases hd : fs.dir self.custom_rules_dir with
    | none => rfl
    | some entries => simp [read_rules_loop_bundle]

/-- C4: the rule blob `hijack_sepolicy` builds before the fork is the RuleBundle
of the rules root: the fragments of the readable entries, in discovery order,
each followed by a newline; nothing for an empty or unopenable root; `R1\n` for
two entries of which only one is readable, with text `R1`. The watcher hands
exactly this blob to `load_rules`. -/
theorem hijack_sepolicy_rule_bundle {Pol : Type} (E : Engine Pol) (P : Paths)
    (fs : FileSys) (W : Handshake) (self : MagiskInit) :
    (self.read_custom_rules fs).1 = RuleBundle.ofRoot fs self.custom_rules_dir ∧
    (∀ entries, self.custom_rules_dir ≠ "" → fs.dir self.custom_rules_dir = some entries →
      (self.read_custom_rules fs).1 =
        String.join ((entries.filter
          (fun d => fs.readable (self.custom_rules_dir ++ "/" ++ d ++ "/sepolicy.rule"))).map
          (fun d => fs.full_read (self.custom_rules_dir ++ "/" ++ d ++ "/sepolicy.rule")
            ++ "\n"))) ∧
    (self.custom_rules_dir = "" ∨ fs.dir self.custom_rules_dir = none ∨
        fs.dir self.custom_rules_dir = some [] → (self.read_custom_rules fs).1 = "") ∧
    (∀ a b R1, self.custom_rules_dir ≠ "" → fs.dir self.custom_rules_dir = some [a, b] →
      fs.readable (self.custom_rules_dir ++ "/" ++ a ++ "/sepolicy.rule") = false →
      fs.readable (self.custom_rules_dir ++ "/" ++ b ++ "/sepolicy.rule") = true →
      fs.full_read (self.custom_rules_dir ++ "/" ++ b ++ "/sepolicy.rule") = R1 →
      (self.read_custom_rules fs).1 = R1 ++ "\n") ∧
    (∀ a b R1, self.custom_rules_dir ≠ "" → fs.dir self.custom_rules_dir = some [a, b] →
      fs.readable (self.custom_rules_dir ++ "/" ++ a ++ "/sepolicy.rule") = true →
      fs.readable (self.custom_rules_dir ++ "/" ++ b ++ "/sepolicy.rule") = false →
      fs.full_read (self.custom_rules_dir ++ "/" ++ a ++ "/sepolicy.rule") = R1 →
      (self.read_custom_rules fs).1 = R1 ++ "\n") ∧
    (∀ pol, W.fork_ret = 0 → E.from_data W.policy = some pol →
      ¬ (fs.present P.SELINUX_ENFORCE = false ∧ fs.full_read self.compat_path = "") →
      Call.load_rules (RuleBundle.ofRoot fs self.custom_rules_dir) ∈
        (self.hijack_sepolicy E P fs W).calls) := by
  have h0 := read_custom_rules_ofRoot fs self
  refine ⟨h0, ?_, ?_, ?_, ?_, ?_⟩
  · intro entries hne hd
    rw [h0]; simp [RuleBundle.ofRoot, hne, hd, RuleBundle, rule_path]
  · intro h
    rw [h0]
    rcases h with h | h | h
    · simp [RuleBundle.ofRoot, h]
    · by_cases hne : self.custom_rules_dir = "" <;> simp [RuleBundle.ofRoot, h, hne]
    · by_cases hne : self.custom_rules_dir = "" <;>
        simp [RuleBundle.ofRoot, h, hne, RuleBundle, String.join]
  · intro a b R1 hne hd ha hb hR
    rw [h0]
    simp [RuleBundle.ofRoot, hne, hd, RuleBundle, rule_path, List.filter_cons, ha, hb, hR,
      string_join_cons, String.join]
  · intro a b R1 hne hd ha hb hR
    rw [h0]
    simp [RuleBundle.ofRoot, hne, hd, RuleBundle, rule_path, List.filter_cons, ha, hb, hR,
      string_join_cons, String.join]
  · intro pol hf hE hen
    rw [← h0]
    by_cases h : fs.present P.SELINUX_ENFORCE = true
    · rw [calls_direct E P fs W self h]
      simp [hf, MagiskInit.watcher, hE]
    · have h' : fs.present P.SELINUX_ENFORCE = false := by simpa using h
      have hdt : fs.full_read self.compat_path ≠ "" := fun hdt => hen ⟨h', hdt⟩
      rw [calls_detour E P fs W self h' hdt]
      simp [hf, MagiskInit.watcher, hE]

/-! ## Facts on descriptors -/

theorem mock_ne (s a b : String) (h : a ≠ b) : s ++ a ≠ s ++ b := by
  intro he
  apply h
  have := congrArg String.data he
  simp only [String.data_append] at this
  exact String.ext (List.append_cancel_left this)

theorem mock_compat_ne_enforce (P : Paths) : MOCK_COMPAT P ≠ MOCK_ENFORCE P :=
  mock_ne _ _ _ (by decide)

theorem mock_enforce_ne_compat (P : Paths) : MOCK_ENFORCE P ≠ MOCK_COMPAT P :=
  mock_ne _ _ _ (by decide)

theorem resolve_append (tbl : FdTable) (a b : List Call) :
    resolve tbl (a ++ b) = resolve tbl a ++ resolve (a.foldl fdStep tbl) b := by
  induction a generalizing tbl with
  | nil => rfl
  | cons c cs ih => simp [resolve, ih]

theorem fdStep_of_not_usesFd (tbl : FdTable) {c : Call} (h : c.usesFd = false) :
    fdStep tbl c = tbl ∧ writeTarget tbl c = none := by
  cases c <;> simp_all [Call.usesFd, fdStep, writeTarget]

theorem foldl_fdStep_of_not_usesFd (tbl : FdTable) (cs : List Call)
    (h : ∀ c ∈ cs, c.usesFd = false) : cs.foldl fdStep tbl = tbl := by
  induction cs with
  | nil => rfl
  | cons c cs ih =>
    simp only [List.foldl_cons]
    rw [(fdStep_of_not_usesFd tbl (h c (List.mem_cons_self _ _))).1]
    exact ih (fun d hd => h d (List.mem_cons_of_mem _ hd))

theorem resolve_of_not_usesFd (tbl : FdTable) (cs : List Call)
    (h : ∀ c ∈ cs, c.usesFd = false) : resolve tbl cs = cs.map (fun c => (c, none)) := by
  induction cs with
  | nil => rfl
  | cons c cs ih =>
    have hc := fdStep_of_not_usesFd tbl (h c (List.mem_cons_self _ _))
    simp only [resolve, List.map_cons, hc.1, hc.2]
    rw [ih (fun d hd => h d (List.mem_cons_of_mem _ hd))]

theorem inert_usesFd {c : Call} (h : c.isInert = true) : c.usesFd = false := by
  cases c <;> simp_all [Call.isInert, Call.usesFd]

theorem update_noFds_none (fd : Int) : Function.update noFds fd none = noFds := by
  funext x
  by_cases hx : x = fd <;> simp [Function.update_apply, hx, noFds]

theorem open_close_noFds (path : String) (fd : Int) :
    Function.update (Function.update noFds fd (some path)) fd none = noFds := by
  rw [Function.update_idem, update_noFds_none]

/-- The compat replay closes the descriptor it opens. -/
theorem compat_replay_fds (P : Paths) (W : Handshake) (self : MagiskInit) (dt : String) :
    (MagiskInit.compat_replay P W self dt).foldl fdStep noFds = noFds := by
  unfold MagiskInit.compat_replay
  by_cases h : dt = ""
  · simp [h]
  · by_cases hfd : 0 ≤ W.fd_compat
    · simp only [h, if_false, MagiskInit.hijack, List.cons_append, List.nil_append,
        List.foldl_cons, List.foldl_nil, fdStep, hfd, if_true, ne_eq, not_false_eq_true,
        open_close_noFds]
    · simp only [h, if_false, MagiskInit.hijack, List.cons_append, List.nil_append,
        List.foldl_cons, List.foldl_nil, fdStep, hfd, if_true, ne_eq, not_false_eq_true,
        update_noFds_none]

/-- The policy interception closes the descriptor it opens. -/
theorem intercept_fds (P : Paths) (W : Handshake) (rules : String) :
    (MagiskInit.intercept P W rules).foldl fdStep noFds = noFds := by
  unfold MagiskInit.intercept
  by_cases hfd : 0 ≤ W.fd_load
  · simp only [List.foldl_cons, List.foldl_nil, fdStep, hfd, if_true, open_close_noFds]
  · simp only [List.foldl_cons, List.foldl_nil, fdStep, hfd, if_false, update_noFds_none]

/-- The watcher when the image parses: compat replay, interception, release. -/
theorem watcher_calls {Pol : Type} (E : Engine Pol) (P : Paths) (W : Handshake)
    (self : MagiskInit) (dt rules : String) (pol : Pol) (h : E.from_data W.policy = some pol) :
    (MagiskInit.watcher E P W self dt rules).1 =
      MagiskInit.compat_replay P W self dt ++ (MagiskInit.intercept P W rules ++
        MagiskInit.release P W (E.to_bytes (E.load_rules (E.magisk_rules pol) rules))) := by
  simp [MagiskInit.watcher, h, MagiskInit.intercept]

/-- The watcher when the image does not parse. -/
theorem watcher_calls_crash {Pol : Type} (E : Engine Pol) (P : Paths) (W : Handshake)
    (self : MagiskInit) (dt rules : String) (h : E.from_data W.policy = none) :
    (MagiskInit.watcher E P W self dt rules).1 =
      MagiskInit.compat_replay P W self dt ++
        [ Call.xopen (MOCK_LOAD P) O_RDONLY W.fd_load,
          Call.fd_full_read W.fd_load W.policy,
          Call.close W.fd_load,
          Call.from_data W.policy W.policy.length ] := by
  simp [MagiskInit.watcher, h]

/-- What the compat replay writes, and where. -/
theorem resolve_compat_replay (P : Paths) (W : Handshake) (self : MagiskInit) (dt : String)
    (h : dt ≠ "") :
    resolve noFds (MagiskInit.compat_replay P W self dt) =
      ([ Call.xopen (MOCK_COMPAT P) O_WRONLY W.fd_compat,
         Call.xumount2 self.compat_path MNT_DETACH ] ++ MagiskInit.hijack P).map
          (fun c => (c, none)) ++
      [ (Call.xwrite W.fd_compat dt dt.length,
          if 0 ≤ W.fd_compat then some (MOCK_COMPAT P) else none),
        (Call.close W.fd_compat, none) ] := by
  unfold MagiskInit.compat_replay
  by_cases hfd : 0 ≤ W.fd_compat
  · simp [h, MagiskInit.hijack, resolve, fdStep, writeTarget, hfd]
  · simp [h, MagiskInit.hijack, resolve, fdStep, writeTarget, hfd, noFds]

/-- The policy interception writes nothing. -/
theorem resolve_intercept (P : Paths) (W : Handshake) (rules : String) :
    resolve noFds (MagiskInit.intercept P W rules) =
      (MagiskInit.intercept P W rules).map (fun c => (c, none)) := by
  simp [MagiskInit.intercept, resolve, fdStep, writeTarget]

/-- What the release phase writes, and where. -/
theorem resolve_release (P : Paths) (W : Handshake) (image : String) :
    resolve noFds (MagiskInit.release P W image) =
      [ (Call.xopen (MOCK_ENFORCE P) O_WRONLY W.fd_enforce, none),
        (Call.umount2 "/init" MNT_DETACH, none),
        (Call.xumount2 P.SELINUX_LOAD MNT_DETACH, none),
        (Call.xumount2 P.SELINUX_ENFORCE MNT_DETACH, none),
        (Call.xmkdir (REAL_SELINUXFS P) 0o755, none),
        (Call.xmount (some "selinuxfs") (REAL_SELINUXFS P) (some "selinuxfs") 0 none, none),
        (Call.to_file (REAL_SELINUXFS P ++ "/load") image, none),
        (Call.full_read P.SELINUX_ENFORCE W.enforce, none),
        (Call.xwrite W.fd_enforce W.enforce W.enforce.length,
          if 0 ≤ W.fd_enforce then some (MOCK_ENFORCE P) else none),
        (Call.close W.fd_enforce, none),
        (Call.exit 0, none) ] := by
  unfold MagiskInit.release
  by_cases hfd : 0 ≤ W.fd_enforce
  · simp [resolve, fdStep, writeTarget, hfd]
  · simp [resolve, fdStep, writeTarget, hfd, noFds]

/-! ## The trace of the watcher process -/

theorem usesFd_before_fork_direct (P : Paths) (fs : FileSys) (self : MagiskInit) :
    ∀ c ∈ MagiskInit.preload P fs ++
        (Call.access P.SELINUX_ENFORCE F_OK true :: MagiskInit.hijack P) ++
        (self.read_custom_rules fs).2, c.usesFd = false := by
  intro c hc
  simp only [List.mem_append, List.mem_cons, MagiskInit.hijack, List.not_mem_nil,
    or_false] at hc
  rcases hc with (hc | hc | hc | hc | hc | hc) | hc
  · exact inert_usesFd (preload_inert P fs c hc)
  all_goals first
    | (subst hc; rfl)
    | exact inert_usesFd (read_custom_rules_inert fs self c hc)

theorem usesFd_before_fork_detour (P : Paths) (fs : FileSys) (self : MagiskInit)
    (dt : String) :
    ∀ c ∈ MagiskInit.preload P fs ++
        [ Call.access P.SELINUX_ENFORCE F_OK false,
          Call.full_read self.compat_path dt,
          Call.xmount none "/proc" none MS_REMOUNT (some "hidepid=2,gid=3009"),
          Call.mkfifo (MOCK_COMPAT P) 0o444,
          Call.xmount (some (MOCK_COMPAT P)) self.compat_path none MS_BIND none ] ++
        (self.read_custom_rules fs).2, c.usesFd = false := by
  intro c hc
  simp only [List.mem_append, List.mem_cons, List.not_mem_nil,
    or_false] at hc
  rcases hc with (hc | hc | hc | hc | hc | hc) | hc
  · exact inert_usesFd (preload_inert P fs c hc)
  all_goals first
    | (subst hc; rfl)
    | exact inert_usesFd (read_custom_rules_inert fs self c hc)

/-- The calls of the child of an engaged hijack: calls that use no descriptor,
then the fork, then the watcher. -/
theorem calls_child {Pol : Type} (E : Engine Pol) (P : Paths) (fs : FileSys)
    (W : Handshake) (self : MagiskInit) (hfork : W.fork_ret = 0)
    (hengaged : ¬ (fs.present P.SELINUX_ENFORCE = false ∧ fs.full_read self.compat_path = "")) :
    ∃ before dt, (∀ c ∈ before, c.usesFd = false) ∧
      (self.hijack_sepolicy E P fs W).calls =
        before ++ Call.xfork 0 ::
          (MagiskInit.watcher E P W self dt (RuleBundle.ofRoot fs self.custom_rules_dir)).1 := by
  by_cases h : fs.present P.SELINUX_ENFORCE = true
  · refine ⟨_, "", usesFd_before_fork_direct P fs self, ?_⟩
    rw [calls_direct E P fs W self h, read_custom_rules_ofRoot]
    simp [hfork]
  · have h' : fs.present P.SELINUX_ENFORCE = false := by simpa using h
    have hdt : fs.full_read self.compat_path ≠ "" := fun hdt => hengaged ⟨h', hdt⟩
    refine ⟨_, fs.full_read self.compat_path,
      usesFd_before_fork_detour P fs self (fs.full_read self.compat_path), ?_⟩
    rw [calls_detour E P fs W self h' hdt, read_custom_rules_ofRoot]
    simp [hfork]

theorem resolve_child (before cr it rel : List Call) (r : Int)
    (hb : ∀ c ∈ before, c.usesFd = false)
    (hcr : cr.foldl fdStep noFds = noFds) (hit : it.foldl fdStep noFds = noFds) :
    resolve noFds (before ++ Call.xfork r :: (cr ++ (it ++ rel))) =
      before.map (fun c => (c, none)) ++ (Call.xfork r, none) ::
        (resolve noFds cr ++ (resolve noFds it ++ resolve noFds rel)) := by
  rw [resolve_append, resolve_of_not_usesFd _ _ hb, foldl_fdStep_of_not_usesFd _ _ hb]
  simp only [resolve, writeTarget, fdStep]
  rw [resolve_append, hcr, resolve_append, hit]

theorem compat_replay_no_enforce_write (P : Paths) (W : Handshake) (self : MagiskInit)
    (dt : String) :
    ∀ y ∈ resolve noFds (MagiskInit.compat_replay P W self dt),
      y.2 ≠ some (MOCK_ENFORCE P) := by
  by_cases h : dt = ""
  · simp [MagiskInit.compat_replay, h, resolve]
  · rw [resolve_compat_replay P W self dt h]
    intro y hy
    simp only [List.mem_append, List.mem_map, List.mem_cons, List.not_mem_nil, or_false] at hy
    rcases hy with ⟨c, _, rfl⟩ | rfl | rfl
    · simp
    · by_cases hfd : 0 ≤ W.fd_compat
      · simpa [hfd] using mock_compat_ne_enforce P
      · simp [hfd]
    · simp

theorem split_unique {α : Type} (Q : α → Prop) :
    ∀ (L R pre post : List α) (w x : α), (∀ y ∈ L, ¬ Q y) → (∀ y ∈ R, ¬ Q y) → Q x →
      L ++ w :: R = pre ++ x :: post → pre = L := by
  intro L
  induction L with
  | nil =>
    intro R pre post w x _ hR hx h
    cases pre with
    | nil => rfl
    | cons p pre' =>
      simp only [List.nil_append, List.cons_append, List.cons.injEq] at h
      exact absurd hx (hR x (by rw [h.2]; simp))
  | cons l L ih =>
    intro R pre post w x hL hR hx h
    cases pre with
    | nil =>
      simp only [List.nil_append, List.cons_append, List.cons.injEq] at h
      exact absurd (h.1 ▸ hx) (hL l (List.mem_cons_self _ _))
    | cons p pre' =>
      simp only [List.cons_append, List.cons.injEq] at h
      rw [h.1, ih R pre' post w x (fun y hy => hL y (List.mem_cons_of_mem _ hy)) hR hx h.2]

/-! ## The ordering guarantee: claim C1 -/

/-- C1: in the trace of the watcher process of an engaged hijack, every write to
the enforce pipe has the serialization of the policy to the real load file
before it and no write to the enforce pipe before it; and when the image
parses, the trace holds the serialization of the patched policy to the real
load file, later the `xwrite` of the enforcement value on the descriptor opened
on the enforce pipe, and no other write to the enforce pipe. -/
theorem hijack_sepolicy_load_before_enforce {Pol : Type} (E : Engine Pol) (P : Paths)
    (fs : FileSys) (W : Handshake) (self : MagiskInit) (hfork : W.fork_ret = 0)
    (hengaged : ¬ (fs.present P.SELINUX_ENFORCE = false ∧ fs.full_read self.compat_path = "")) :
    (∀ pre x post, resolve noFds (self.hijack_sepolicy E P fs W).calls = pre ++ x :: post →
      x.2 = some (MOCK_ENFORCE P) →
      (∃ image, (Call.to_file (REAL_SELINUXFS P ++ "/load") image, none) ∈ pre) ∧
      ∀ y ∈ pre, y.2 ≠ some (MOCK_ENFORCE P)) ∧
    (∀ pol, E.from_data W.policy = some pol →
      ∃ A B C, resolve noFds (self.hijack_sepolicy E P fs W).calls =
        A ++ (Call.to_file (REAL_SELINUXFS P ++ "/load")
                (E.to_bytes (E.load_rules (E.magisk_rules pol)
                  (RuleBundle.ofRoot fs self.custom_rules_dir))), none) ::
          B ++ (Call.xwrite W.fd_enforce W.enforce W.enforce.length,
                 if 0 ≤ W.fd_enforce then some (MOCK_ENFORCE P) else none) :: C ∧
        ∀ y ∈ A ++ B ++ C, y.2 ≠ some (MOCK_ENFORCE P)) := by
  obtain ⟨before, dt, hb, hcalls⟩ := calls_child E P fs W self hfork hengaged
  have hbefore : ∀ y ∈ before.map (fun c => ((c, none) : Call × Option String)),
      y.2 ≠ some (MOCK_ENFORCE P) := by
    intro y hy
    simp only [List.mem_map] at hy
    obtain ⟨c, _, rfl⟩ := hy
    simp
  have hcompat := compat_replay_no_enforce_write P W self dt
  have hparsed : ∀ pol, E.from_data W.policy = some pol →
      ∃ A B C, resolve noFds (self.hijack_sepolicy E P fs W).calls =
        A ++ (Call.to_file (REAL_SELINUXFS P ++ "/load")
                (E.to_bytes (E.load_rules (E.magisk_rules pol)
                  (RuleBundle.ofRoot fs self.custom_rules_dir))), none) ::
          B ++ (Call.xwrite W.fd_enforce W.enforce W.enforce.length,
                 if 0 ≤ W.fd_enforce then some (MOCK_ENFORCE P) else none) :: C ∧
        ∀ y ∈ A ++ B ++ C, y.2 ≠ some (MOCK_ENFORCE P) := by
    intro pol hpol
    rw [hcalls, watcher_calls E P W self dt _ pol hpol,
      resolve_child _ _ _ _ _ hb (compat_replay_fds P W self dt) (intercept_fds P W _),
      resolve_intercept, resolve_release]
    refine ⟨before.map (fun c => (c, none)) ++ (Call.xfork 0, none) ::
        (resolve noFds (MagiskInit.compat_replay P W self dt) ++
          ((MagiskInit.intercept P W (RuleBundle.ofRoot fs self.custom_rules_dir)).map
            (fun c => (c, none)) ++
          [ (Call.xopen (MOCK_ENFORCE P) O_WRONLY W.fd_enforce, none),
            (Call.umount2 "/init" MNT_DETACH, none),
            (Call.xumount2 P.SELINUX_LOAD MNT_DETACH, none),
            (Call.xumount2 P.SELINUX_ENFORCE MNT_DETACH, none),
            (Call.xmkdir (REAL_SELINUXFS P) 0o755, none),
            (Call.xmount (some "selinuxfs") (REAL_SELINUXFS P) (some "selinuxfs") 0 none,
              none) ])),
      [(Call.full_read P.SELINUX_ENFORCE W.enforce, none)],
      [(Call.close W.fd_enforce, none), (Call.exit 0, none)], ?_, ?_⟩
    · simp
    · intro y hy
      simp only [List.mem_append, List.mem_cons, List.mem_map, List.not_mem_nil,
        or_false] at hy
      rcases hy with ((hy | hy | hy | hy) | hy) | hy
      · exact hbefore y (by simpa using hy)
      · subst hy; simp
      · exact hcompat y hy
      · rcases hy with ⟨c, _, rfl⟩ | hy
        · simp
        · rcases hy with rfl | rfl | rfl | rfl | rfl | rfl <;> simp
      · subst hy; simp
      · rcases hy with rfl | rfl <;> simp
  refine ⟨?_, hparsed⟩
  intro pre x post hsplit hx
  cases hpol : E.from_data W.policy with
  | none =>
    exfalso
    have hmem : x ∈ resolve noFds (self.hijack_sepolicy E P fs W).calls := by
      rw [hsplit]; simp
    rw [hcalls, watcher_calls_crash E P W self dt _ hpol, resolve_append,
      resolve_of_not_usesFd _ _ hb, foldl_fdStep_of_not_usesFd _ _ hb] at hmem
    simp only [resolve, writeTarget, fdStep] at hmem
    rw [resolve_append, compat_replay_fds] at hmem
    simp only [resolve, writeTarget, fdStep, List.mem_append, List.mem_cons,
      List.not_mem_nil, or_false] at hmem
    rcases hmem with hmem | hmem | hmem | hmem
    · exact hbefore x hmem hx
    · subst hmem; simp at hx
    · exact hcompat x hmem hx
    · rcases hmem with rfl | rfl | rfl | rfl <;> simp at hx
  | some pol =>
    obtain ⟨A, B, C, hres, hfree⟩ := hparsed pol hpol
    have hpre : pre = A ++ (Call.to_file (REAL_SELINUXFS P ++ "/load")
        (E.to_bytes (E.load_rules (E.magisk_rules pol)
          (RuleBundle.ofRoot fs self.custom_rules_dir))), none) :: B := by
      refine split_unique (fun y => y.2 = some (MOCK_ENFORCE P)) _ C pre post
        (Call.xwrite W.fd_enforce W.enforce W.enforce.length,
          if 0 ≤ W.fd_enforce then some (MOCK_ENFORCE P) else none) x ?_ ?_ hx ?_
      · intro y hy
        simp only [List.mem_append, List.mem_cons] at hy
        rcases hy with hy | rfl | hy
        · exact hfree y (by simp [hy])
        · simp
        · exact hfree y (by simp [hy])
      · intro y hy
        exact hfree y (by simp [hy])
      · rw [← hsplit, hres]
    subst hpre
    refine ⟨⟨E.to_bytes (E.load_rules (E.magisk_rules pol)
      (RuleBundle.ofRoot fs self.custom_rules_dir)), by simp⟩, ?_⟩
    intro y hy
    simp only [List.mem_append, List.mem_cons] at hy
    rcases hy with hy | rfl | hy
    · exact hfree y (by simp [hy])
    · simp
    · exact hfree y (by simp [hy])

/-! ## The compat replay: claim C5 -/

theorem filter_map_none (p : String) (cs : List Call) :
    (cs.map (fun c => ((c, none) : Call × Option String))).filter
      (fun x => decide (x.2 = some p)) = [] := by
  rw [List.filter_eq_nil_iff]
  intro y hy
  simp only [List.mem_map] at hy
  obtain ⟨c, _, rfl⟩ := hy
  simp

theorem writtenBytes_whole (fd : Int) (data : String) :
    writtenBytes (Call.xwrite fd data data.length) = data := by
  show String.mk (data.data.take data.data.length) = data
  rw [List.take_length]

theorem resolve_fork (before cr rest : List Call) (r : Int)
    (hb : ∀ c ∈ before, c.usesFd = false) (hcr : cr.foldl fdStep noFds = noFds) :
    resolve noFds (before ++ Call.xfork r :: (cr ++ rest)) =
      before.map (fun c => (c, none)) ++ (Call.xfork r, none) ::
        (resolve noFds cr ++ resolve noFds rest) := by
  rw [resolve_append, resolve_of_not_usesFd _ _ hb, foldl_fdStep_of_not_usesFd _ _ hb]
  simp only [resolve, writeTarget, fdStep]
  rw [resolve_append, hcr]

/-- What follows the compat replay writes nothing to the compat pipe. -/
theorem after_replay_no_compat_write {Pol : Type} (E : Engine Pol) (P : Paths)
    (W : Handshake) (self : MagiskInit) (dt rules : String) :
    ∃ rest, (MagiskInit.watcher E P W self dt rules).1 =
        MagiskInit.compat_replay P W self dt ++ rest ∧
      (resolve noFds rest).filter (fun x => decide (x.2 = some (MOCK_COMPAT P))) = [] := by
  cases hpol : E.from_data W.policy with
  | none =>
    refine ⟨_, watcher_calls_crash E P W self dt rules hpol, ?_⟩
    simp [resolve, writeTarget]
  | some pol =>
    refine ⟨_, watcher_calls E P W self dt rules pol hpol, ?_⟩
    rw [resolve_append, intercept_fds, resolve_intercept, resolve_release,
      List.filter_append, filter_map_none]
    by_cases hfd : 0 ≤ W.fd_enforce
    · simp [hfd, mock_enforce_ne_compat P]
    · simp [hfd]

/-- The writes of the watcher to the compat pipe on the detour. -/
theorem compat_writes {Pol : Type} (E : Engine Pol) (P : Paths)
    (fs : FileSys) (W : Handshake) (self : MagiskInit) (hfork : W.fork_ret = 0)
    (hnode : fs.present P.SELINUX_ENFORCE = false)
    (hfrag : fs.full_read self.compat_path ≠ "") (hfd : 0 ≤ W.fd_compat) :
    (resolve noFds (self.hijack_sepolicy E P fs W).calls).filter
        (fun x => decide (x.2 = some (MOCK_COMPAT P))) =
      [ (Call.xwrite W.fd_compat (fs.full_read self.compat_path)
          (fs.full_read self.compat_path).length, some (MOCK_COMPAT P)) ] := by
  obtain ⟨rest, hw, hrest⟩ := after_replay_no_compat_write E P W self
    (fs.full_read self.compat_path) (self.read_custom_rules fs).1
  rw [calls_detour E P fs W self hnode hfrag]
  simp only [hfork, ne_eq, not_true_eq_false, if_false]
  rw [hw, resolve_fork _ _ _ _ (usesFd_before_fork_detour P fs self _)
    (compat_replay_fds P W self _), resolve_compat_replay P W self _ hfrag]
  simp only [List.filter_append, filter_map_none, List.filter_cons, hrest, hfd, if_true,
    List.nil_append, List.append_nil]
  simp

/-- C5: on the compat detour the watcher reads the fragment before the compat
redirection is mounted, and (when the compat pipe opens) writes to the compat
pipe once: the fragment as read, with its own length; what the reader of the
pipe receives is the fragment, and is `vendor,fstab` for the fragment
`vendor,fstab`. -/
theorem hijack_sepolicy_compat_replay {Pol : Type} (E : Engine Pol) (P : Paths)
    (fs : FileSys) (W : Handshake) (self : MagiskInit) (hfork : W.fork_ret = 0)
    (hnode : fs.present P.SELINUX_ENFORCE = false)
    (hfrag : fs.full_read self.compat_path ≠ "") (hopen : 0 ≤ W.fd_compat) :
    (∃ A B C, (self.hijack_sepolicy E P fs W).calls =
        A ++ Call.full_read self.compat_path (fs.full_read self.compat_path) ::
          B ++ Call.xmount (some (MOCK_COMPAT P)) self.compat_path none MS_BIND none :: C ∧
        ∀ c ∈ A, c.mountOp = none) ∧
    (resolve noFds (self.hijack_sepolicy E P fs W).calls).filter
        (fun x => decide (x.2 = some (MOCK_COMPAT P))) =
      [ (Call.xwrite W.fd_compat (fs.full_read self.compat_path)
          (fs.full_read self.compat_path).length, some (MOCK_COMPAT P)) ] ∧
    pipeContent (MOCK_COMPAT P) (self.hijack_sepolicy E P fs W).calls =
      fs.full_read self.compat_path ∧
    (fs.full_read self.compat_path = "vendor,fstab" →
      pipeContent (MOCK_COMPAT P) (self.hijack_sepolicy E P fs W).calls = "vendor,fstab") := by
  have hw := compat_writes E P fs W self hfork hnode hfrag hopen
  have hpipe : pipeContent (MOCK_COMPAT P) (self.hijack_sepolicy E P fs W).calls =
      fs.full_read self.compat_path := by
    unfold pipeContent
    rw [hw]
    simp [writtenBytes_whole, String.join]
  refine ⟨?_, hw, hpipe, fun h => by rw [hpipe, h]⟩
  refine ⟨MagiskInit.preload P fs ++ [Call.access P.SELINUX_ENFORCE F_OK false],
    [ Call.xmount none "/proc" none MS_REMOUNT (some "hidepid=2,gid=3009"),
      Call.mkfifo (MOCK_COMPAT P) 0o444 ],
    (self.read_custom_rules fs).2 ++ (Call.xfork W.fork_ret ::
      if W.fork_ret ≠ 0 then []
      else (MagiskInit.watcher E P W self (fs.full_read self.compat_path)
        (self.read_custom_rules fs).1).1), ?_, ?_⟩
  · rw [calls_detour E P fs W self hnode hfrag]
    simp only [List.append_assoc, List.cons_append, List.nil_append]
  · intro c hc
    simp only [List.mem_append, List.mem_singleton] at hc
    rcases hc with hc | rfl
    · exact inert_mountOp (preload_inert P fs c hc)
    · rfl

/-! ## The enforce-node pre-open: claim C10 -/

theorem inert_no_pop {c : Call} (h : c.isInert = true) (t : String) :
    c.mountOp ≠ some (t, MountOp.pop) := by
  rw [inert_mountOp h]; simp

theorem hijack_no_pop (P : Paths) (t : String) :
    ∀ c ∈ MagiskInit.hijack P, c.mountOp ≠ some (t, MountOp.pop) := by
  intro c hc
  simp only [MagiskInit.hijack, List.mem_cons, List.not_mem_nil, or_false] at hc
  rcases hc with rfl | rfl | rfl | rfl <;> simp [Call.mountOp, MS_BIND, MS_REMOUNT]

theorem compat_replay_no_pop (P : Paths) (W : Handshake) (self : MagiskInit) (dt t : String)
    (ht : self.compat_path ≠ t) :
    ∀ c ∈ MagiskInit.compat_replay P W self dt, c.mountOp ≠ some (t, MountOp.pop) := by
  intro c hc
  unfold MagiskInit.compat_replay at hc
  split at hc
  · simp only [List.mem_append, List.mem_cons, List.not_mem_nil, or_false] at hc
    rcases hc with ((rfl | rfl) | hc) | rfl | rfl
    · simp [Call.mountOp]
    · simp [Call.mountOp, ht]
    · exact hijack_no_pop P t c hc
    · simp [Call.mountOp]
    · simp [Call.mountOp]
  · simp at hc

/-- C10: in the trace of a watcher whose image parses, the enforce pipe is opened
for writing right after the image was read from the load pipe, parsed and
patched, and right before the three unmounts of the teardown; no unmount of
`/init`, of the load node or of the enforce node comes before that open; the
enforcement value is read from the enforce node after its unmount and is what
the `xwrite` on the descriptor of the enforce pipe writes, with its own
length. -/
theorem hijack_sepolicy_enforce_open_before_teardown {Pol : Type} (E : Engine Pol)
    (P : Paths) (fs : FileSys) (W : Handshake) (self : MagiskInit) (pol : Pol)
    (hfork : W.fork_ret = 0)
    (hengaged : ¬ (fs.present P.SELINUX_ENFORCE = false ∧ fs.full_read self.compat_path = ""))
    (hpol : E.from_data W.policy = some pol)
    (hinit : self.compat_path ≠ "/init") (hload : self.compat_path ≠ P.SELINUX_LOAD)
    (henforce : self.compat_path ≠ P.SELINUX_ENFORCE) :
    (∃ A, (self.hijack_sepolicy E P fs W).calls =
        A ++
        [ Call.xopen (MOCK_LOAD P) O_RDONLY W.fd_load,
          Call.fd_full_read W.fd_load W.policy,
          Call.close W.fd_load,
          Call.from_data W.policy W.policy.length,
          Call.magisk_rules,
          Call.load_rules (RuleBundle.ofRoot fs self.custom_rules_dir),
          Call.xopen (MOCK_ENFORCE P) O_WRONLY W.fd_enforce,
          Call.umount2 "/init" MNT_DETACH,
          Call.xumount2 P.SELINUX_LOAD MNT_DETACH,
          Call.xumount2 P.SELINUX_ENFORCE MNT_DETACH,
          Call.xmkdir (REAL_SELINUXFS P) 0o755,
          Call.xmount (some "selinuxfs") (REAL_SELINUXFS P) (some "selinuxfs") 0 none,
          Call.to_file (REAL_SELINUXFS P ++ "/load")
            (E.to_bytes (E.load_rules (E.magisk_rules pol)
              (RuleBundle.ofRoot fs self.custom_rules_dir))),
          Call.full_read P.SELINUX_ENFORCE W.enforce,
          Call.xwrite W.fd_enforce W.enforce W.enforce.length,
          Call.close W.fd_enforce,
          Call.exit 0 ] ∧
        ∀ c ∈ A, c.mountOp ≠ some ("/init", MountOp.pop) ∧
          c.mountOp ≠ some (P.SELINUX_LOAD, MountOp.pop) ∧
          c.mountOp ≠ some (P.SELINUX_ENFORCE, MountOp.pop)) ∧
    (Call.xwrite W.fd_enforce W.enforce W.enforce.length,
      if 0 ≤ W.fd_enforce then some (MOCK_ENFORCE P) else none) ∈
        resolve noFds (self.hijack_sepolicy E P fs W).calls := by
  constructor
  · by_cases h : fs.present P.SELINUX_ENFORCE = true
    · refine ⟨(MagiskInit.preload P fs ++
          (Call.access P.SELINUX_ENFORCE F_OK true :: MagiskInit.hijack P) ++
          (self.read_custom_rules fs).2) ++ [Call.xfork 0], ?_, ?_⟩
      · rw [calls_direct E P fs W self h, read_custom_rules_ofRoot]
        simp [hfork, watcher_calls E P W self _ _ pol hpol, MagiskInit.compat_replay,
          MagiskInit.intercept, MagiskInit.release]
      · intro c hc
        simp only [List.mem_append, List.mem_cons, List.not_mem_nil, or_false] at hc
        rcases hc with ((hc | hc | hc) | hc) | hc
        · exact ⟨inert_no_pop (preload_inert P fs c hc) _,
            inert_no_pop (preload_inert P fs c hc) _, inert_no_pop (preload_inert P fs c hc) _⟩
        · subst hc; simp [Call.mountOp]
        · exact ⟨hijack_no_pop P _ c hc, hijack_no_pop P _ c hc, hijack_no_pop P _ c hc⟩
        · have hi := read_custom_rules_inert fs self c hc
          exact ⟨inert_no_pop hi _, inert_no_pop hi _, inert_no_pop hi _⟩
        · subst hc; simp [Call.mountOp]
    · have h' : fs.present P.SELINUX_ENFORCE = false := by simpa using h
      have hdt : fs.full_read self.compat_path ≠ "" := fun hdt => hengaged ⟨h', hdt⟩
      refine ⟨(MagiskInit.preload P fs ++
          [ Call.access P.SELINUX_ENFORCE F_OK false,
            Call.full_read self.compat_path (fs.full_read self.compat_path),
            Call.xmount none "/proc" none MS_REMOUNT (some "hidepid=2,gid=3009"),
            Call.mkfifo (MOCK_COMPAT P) 0o444,
            Call.xmount (some (MOCK_COMPAT P)) self.compat_path none MS_BIND none ] ++
          (self.read_custom_rules fs).2) ++ Call.xfork 0 ::
          MagiskInit.compat_replay P W self (fs.full_read self.compat_path), ?_, ?_⟩
      · rw [calls_detour E P fs W self h' hdt, read_custom_rules_ofRoot]
        simp [hfork, watcher_calls E P W self _ _ pol hpol,
          MagiskInit.intercept, MagiskInit.release]
      · intro c hc
        simp only [List.mem_append, List.mem_cons, List.not_mem_nil, or_false] at hc
        rcases hc with ((hc | hc | hc | hc | hc | hc) | hc) | hc | hc
        · exact ⟨inert_no_pop (preload_inert P fs c hc) _,
            inert_no_pop (preload_inert P fs c hc) _, inert_no_pop (preload_inert P fs c hc) _⟩
        · subst hc; simp [Call.mountOp]
        · subst hc; simp [Call.mountOp]
        · subst hc; simp [Call.mountOp, MS_REMOUNT]
        · subst hc; simp [Call.mountOp]
        · subst hc; simp [Call.mountOp, MS_REMOUNT, MS_BIND]
        · have hi := read_custom_rules_inert fs self c hc
          exact ⟨inert_no_pop hi _, inert_no_pop hi _, inert_no_pop hi _⟩
        · subst hc; simp [Call.mountOp]
        · exact ⟨compat_replay_no_pop P W self _ _ hinit c hc,
            compat_replay_no_pop P W self _ _ hload c hc,
            compat_replay_no_pop P W self _ _ henforce c hc⟩
  · obtain ⟨before, dt, hb, hcalls⟩ := calls_child E P fs W self hfork hengaged
    rw [hcalls, watcher_calls E P W self dt _ pol hpol,
      resolve_child _ _ _ _ _ hb (compat_replay_fds P W self dt) (intercept_fds P W _),
      resolve_release]
    simp

/-! ## HijackPoints are mounted once and unmounted once: claim C8 -/

theorem opsOn_append (t : String) (a b : List Call) :
    opsOn t (a ++ b) = opsOn t a ++ opsOn t b := by
  simp [opsOn, List.filterMap_append]

theorem opsOn_inert (t : String) (cs : List Call) (h : ∀ c ∈ cs, c.isInert = true) :
    opsOn t cs = [] := by
  unfold opsOn
  rw [List.filterMap_eq_nil_iff]
  intro c hc
  rw [inert_mountOp (h c hc)]

theorem distinct_targets {P : Paths} {self : MagiskInit} (h : DistinctTargets P self) :
    ("/init" ≠ P.SELINUX_LOAD ∧ "/init" ≠ P.SELINUX_ENFORCE ∧ "/init" ≠ self.compat_path) ∧
    ("/proc" ≠ P.SELINUX_LOAD ∧ "/proc" ≠ P.SELINUX_ENFORCE ∧ "/proc" ≠ self.compat_path) ∧
    (REAL_SELINUXFS P ≠ P.SELINUX_LOAD ∧ REAL_SELINUXFS P ≠ P.SELINUX_ENFORCE ∧
      REAL_SELINUXFS P ≠ self.compat_path) ∧
    (P.SELINUX_LOAD ≠ P.SELINUX_ENFORCE ∧ P.SELINUX_LOAD ≠ self.compat_path) ∧
    P.SELINUX_ENFORCE ≠ self.compat_path ∧
    ("/init" ≠ REAL_SELINUXFS P ∧ "/proc" ≠ REAL_SELINUXFS P) := by
  unfold DistinctTargets at h
  simp only [List.nodup_cons, List.mem_cons, List.mem_singleton, not_or, List.not_mem_nil,
    not_false_eq_true, List.nodup_nil, and_true] at h
  obtain ⟨⟨_, h1, h2, h3, h4⟩, ⟨h5, h6, h7, h8⟩, ⟨h9, h10, h11⟩, ⟨h12, h13⟩, h14⟩ := h
  exact ⟨⟨h2, h3, h4⟩, ⟨h6, h7, h8⟩, ⟨h9, h10, h11⟩, ⟨h12, h13⟩, h14, h1, h5⟩

/-- The mount operations of the release phase on a mount point. -/
theorem opsOn_release (P : Paths) (W : Handshake) (image t : String) :
    opsOn t (MagiskInit.release P W image) =
      (if "/init" = t then [MountOp.pop] else []) ++
      (if P.SELINUX_LOAD = t then [MountOp.pop] else []) ++
      (if P.SELINUX_ENFORCE = t then [MountOp.pop] else []) ++
      (if REAL_SELINUXFS P = t then
        [MountOp.push ⟨some "selinuxfs", some "selinuxfs", 0, none⟩] else []) := by
  unfold opsOn MagiskInit.release
  by_cases h1 : "/init" = t <;> by_cases h2 : P.SELINUX_LOAD = t <;>
  by_cases h3 : P.SELINUX_ENFORCE = t <;> by_cases h4 : REAL_SELINUXFS P = t <;>
  simp [List.filterMap_cons, Call.mountOp, MS_REMOUNT, h1, h2, h3, h4]

/-- The mount operations of the lambda `hijack` on a mount point. -/
theorem opsOn_hijack (P : Paths) (t : String) :
    opsOn t (MagiskInit.hijack P) =
      (if P.SELINUX_LOAD = t then [MountOp.push (hijackMount (MOCK_LOAD P))] else []) ++
      (if P.SELINUX_ENFORCE = t then [MountOp.push (hijackMount (MOCK_ENFORCE P))] else []) := by
  unfold opsOn MagiskInit.hijack hijackMount
  by_cases h2 : P.SELINUX_LOAD = t <;> by_cases h3 : P.SELINUX_ENFORCE = t <;>
  simp [List.filterMap_cons, Call.mountOp, MS_REMOUNT, MS_BIND, h2, h3]

/-- The policy interception performs no mount operation. -/
theorem opsOn_intercept (P : Paths) (W : Handshake) (rules t : String) :
    opsOn t (MagiskInit.intercept P W rules) = [] := by
  simp [opsOn, MagiskInit.intercept, List.filterMap_cons, Call.mountOp]

/-- The mount operations of the compat replay on a mount point. -/
theorem opsOn_compat_replay (P : Paths) (W : Handshake) (self : MagiskInit) (dt t : String)
    (h : dt ≠ "") :
    opsOn t (MagiskInit.compat_replay P W self dt) =
      (if self.compat_path = t then [MountOp.pop] else []) ++ opsOn t (MagiskInit.hijack P) := by
  unfold MagiskInit.compat_replay
  rw [if_pos h, opsOn_append, opsOn_append]
  by_cases h1 : self.compat_path = t <;>
  simp [opsOn, List.filterMap_cons, Call.mountOp, h1]

/-- The calls of the child of a direct hijack whose image parses. -/
theorem calls_direct_child {Pol : Type} (E : Engine Pol) (P : Paths) (fs : FileSys)
    (W : Handshake) (self : MagiskInit) (pol : Pol)
    (h : fs.present P.SELINUX_ENFORCE = true) (hfork : W.fork_ret = 0)
    (hpol : E.from_data W.policy = some pol) :
    (self.hijack_sepolicy E P fs W).calls =
      (MagiskInit.preload P fs ++
        (Call.access P.SELINUX_ENFORCE F_OK true :: MagiskInit.hijack P) ++
        (self.read_custom_rules fs).2) ++
      (Call.xfork 0 :: (MagiskInit.intercept P W (self.read_custom_rules fs).1 ++
        MagiskInit.release P W (E.to_bytes (E.load_rules (E.magisk_rules pol)
          (self.read_custom_rules fs).1)))) := by
  rw [calls_direct E P fs W self h]
  simp [hfork, watcher_calls E P W self _ _ pol hpol, MagiskInit.compat_replay]

/-- The calls of the child of a compat detour whose image parses. -/
theorem calls_detour_child {Pol : Type} (E : Engine Pol) (P : Paths) (fs : FileSys)
    (W : Handshake) (self : MagiskInit) (pol : Pol)
    (h : fs.present P.SELINUX_ENFORCE = false) (hdt : fs.full_read self.compat_path ≠ "")
    (hfork : W.fork_ret = 0) (hpol : E.from_data W.policy = some pol) :
    (self.hijack_sepolicy E P fs W).calls =
      (MagiskInit.preload P fs ++
        [ Call.access P.SELINUX_ENFORCE F_OK false,
          Call.full_read self.compat_path (fs.full_read self.compat_path),
          Call.xmount none "/proc" none MS_REMOUNT (some "hidepid=2,gid=3009"),
          Call.mkfifo (MOCK_COMPAT P) 0o444,
          Call.xmount (some (MOCK_COMPAT P)) self.compat_path none MS_BIND none ] ++
        (self.read_custom_rules fs).2) ++
      (Call.xfork 0 ::
        (MagiskInit.compat_replay P W self (fs.full_read self.compat_path) ++
          (MagiskInit.intercept P W (self.read_custom_rules fs).1 ++
            MagiskInit.release P W (E.to_bytes (E.load_rules (E.magisk_rules pol)
              (self.read_custom_rules fs).1))))) := by
  rw [calls_detour E P fs W self h hdt]
  simp [hfork, watcher_calls E P W self _ _ pol hpol]

theorem opsOn_cons (t : String) (c : Call) (cs : List Call) :
    opsOn t (c :: cs) = opsOn t [c] ++ opsOn t cs := by
  simp [opsOn, List.filterMap_cons]
  cases c.mountOp with
  | none => simp
  | some x => by_cases h : x.1 = t <;> simp [h]

/-- The mount operations of the child of a direct hijack on a mount point. -/
theorem opsOn_direct {Pol : Type} (E : Engine Pol) (P : Paths) (fs : FileSys)
    (W : Handshake) (self : MagiskInit) (pol : Pol) (t : String)
    (h : fs.present P.SELINUX_ENFORCE = true) (hfork : W.fork_ret = 0)
    (hpol : E.from_data W.policy = some pol) :
    opsOn t (self.hijack_sepolicy E P fs W).calls =
      opsOn t (MagiskInit.hijack P) ++
      opsOn t (MagiskInit.release P W (E.to_bytes (E.load_rules (E.magisk_rules pol)
        (self.read_custom_rules fs).1))) := by
  rw [calls_direct_child E P fs W self pol h hfork hpol, opsOn_append, opsOn_append,
    opsOn_append, opsOn_cons t (Call.access _ _ _), opsOn_cons t (Call.xfork _), opsOn_append,
    opsOn_inert _ _ (preload_inert P fs), opsOn_inert _ _ (read_custom_rules_inert fs self),
    opsOn_intercept]
  simp [opsOn, Call.mountOp]

/-- The mount operations of the child of a compat detour on a mount point. -/
theorem opsOn_detour {Pol : Type} (E : Engine Pol) (P : Paths) (fs : FileSys)
    (W : Handshake) (self : MagiskInit) (pol : Pol) (t : String)
    (h : fs.present P.SELINUX_ENFORCE = false) (hdt : fs.full_read self.compat_path ≠ "")
    (hfork : W.fork_ret = 0) (hpol : E.from_data W.policy = some pol) :
    opsOn t (self.hijack_sepolicy E P fs W).calls =
      (if "/proc" = t then [MountOp.remount MS_REMOUNT (some "hidepid=2,gid=3009")] else []) ++
      (if self.compat_path = t then [MountOp.push (hijackMount (MOCK_COMPAT P))] else []) ++
      (if self.compat_path = t then [MountOp.pop] else []) ++
      opsOn t (MagiskInit.hijack P) ++
      opsOn t (MagiskInit.release P W (E.to_bytes (E.load_rules (E.magisk_rules pol)
        (self.read_custom_rules fs).1))) := by
  rw [calls_detour_child E P fs W self pol h hdt hfork hpol, opsOn_append, opsOn_append,
    opsOn_append, opsOn_cons t (Call.xfork _), opsOn_append, opsOn_append,
    opsOn_inert _ _ (preload_inert P fs), opsOn_inert _ _ (read_custom_rules_inert fs self),
    opsOn_intercept, opsOn_compat_replay P W self _ _ hdt]
  by_cases h1 : "/proc" = t <;> by_cases h2 : self.compat_path = t <;>
  simp [opsOn, List.filterMap_cons, Call.mountOp, MS_REMOUNT, MS_BIND, hijackMount, h1, h2]

theorem tail_after_mounts (cs A : List Call) (fd : Int) (data : String) (count : Nat)
    (h : cs = A ++ [Call.xwrite fd data count, Call.close fd, Call.exit 0]) :
    cs = A ++ [Call.xwrite fd data count, Call.close fd, Call.exit 0] ∧
      ∀ t, opsOn t A = opsOn t cs := by
  refine ⟨h, fun t => ?_⟩
  rw [h, opsOn_append]
  simp [opsOn, Call.mountOp]

/-- C8 (amended): in the trace of parent and watcher of an engaged hijack whose
image parses, with the six mount points the controller touches being different
paths: the bind mounts performed are the compat pipe over
`<dt_dir>/fstab/compatible` (detour only), the load pipe over the load node and
the enforce pipe over the enforce node, each once; the mount operations on each
of these mount points are that bind mount followed by one unmount (none at all
on the compat node of a direct hijack); and the trace ends with the write of the
enforcement value, `close` and `exit`, after all of them. -/
theorem hijack_sepolicy_hijack_points {Pol : Type} (E : Engine Pol) (P : Paths)
    (fs : FileSys) (W : Handshake) (self : MagiskInit) (pol : Pol)
    (hfork : W.fork_ret = 0)
    (hengaged : ¬ (fs.present P.SELINUX_ENFORCE = false ∧ fs.full_read self.compat_path = ""))
    (hpol : E.from_data W.policy = some pol) (hdistinct : DistinctTargets P self) :
    (self.hijack_sepolicy E P fs W).calls.filterMap Call.bindMount =
      (if fs.present P.SELINUX_ENFORCE then [] else [(MOCK_COMPAT P, self.compat_path)]) ++
        [(MOCK_LOAD P, P.SELINUX_LOAD), (MOCK_ENFORCE P, P.SELINUX_ENFORCE)] ∧
    opsOn P.SELINUX_LOAD (self.hijack_sepolicy E P fs W).calls =
      [MountOp.push (hijackMount (MOCK_LOAD P)), MountOp.pop] ∧
    opsOn P.SELINUX_ENFORCE (self.hijack_sepolicy E P fs W).calls =
      [MountOp.push (hijackMount (MOCK_ENFORCE P)), MountOp.pop] ∧
    opsOn self.compat_path (self.hijack_sepolicy E P fs W).calls =
      (if fs.present P.SELINUX_ENFORCE then []
       else [MountOp.push (hijackMount (MOCK_COMPAT P)), MountOp.pop]) ∧
    ∃ A, (self.hijack_sepolicy E P fs W).calls =
        A ++ [ Call.xwrite W.fd_enforce W.enforce W.enforce.length,
               Call.close W.fd_enforce, Call.exit 0 ] ∧
      ∀ t, opsOn t A = opsOn t (self.hijack_sepolicy E P fs W).calls := by
  obtain ⟨⟨i1, i2, i3⟩, ⟨p1, p2, p3⟩, ⟨r1, r2, r3⟩, ⟨l1, l2⟩, e1, _, _⟩ :=
    distinct_targets hdistinct
  have hpre := filterMap_bindMount_inert _ (preload_inert P fs)
  have hrc := filterMap_bindMount_inert _ (read_custom_rules_inert fs self)
  by_cases h : fs.present P.SELINUX_ENFORCE = true
  · refine ⟨?_, ?_, ?_, ?_, ?_⟩
    · rw [calls_direct_child E P fs W self pol h hfork hpol]
      simp [List.filterMap_append, hpre, hrc, List.filterMap_cons, Call.bindMount,
        MagiskInit.hijack, MagiskInit.intercept, MagiskInit.release, h, MS_BIND]
    · rw [opsOn_direct E P fs W self pol _ h hfork hpol, opsOn_hijack, opsOn_release]
      simp [i1, r1, l1.symm]
    · rw [opsOn_direct E P fs W self pol _ h hfork hpol, opsOn_hijack, opsOn_release]
      simp [i2, r2, l1]
    · rw [opsOn_direct E P fs W self pol _ h hfork hpol, opsOn_hijack, opsOn_release]
      simp [i3, r3, l2, e1, h]
    · refine ⟨(MagiskInit.preload P fs ++
          (Call.access P.SELINUX_ENFORCE F_OK true :: MagiskInit.hijack P) ++
          (self.read_custom_rules fs).2) ++
        (Call.xfork 0 :: (MagiskInit.intercept P W (self.read_custom_rules fs).1 ++
          (MagiskInit.release P W (E.to_bytes (E.load_rules (E.magisk_rules pol)
            (self.read_custom_rules fs).1))).take 8)), ?_⟩
      refine tail_after_mounts _ _ _ _ _ ?_
      rw [calls_direct_child E P fs W self pol h hfork hpol]
      simp [MagiskInit.release]
  · have h' : fs.present P.SELINUX_ENFORCE = false := by simpa using h
    have hdt : fs.full_read self.compat_path ≠ "" := fun hdt => hengaged ⟨h', hdt⟩
    refine ⟨?_, ?_, ?_, ?_, ?_⟩
    · rw [calls_detour_child E P fs W self pol h' hdt hfork hpol]
      simp [List.filterMap_append, hpre, hrc, List.filterMap_cons, Call.bindMount,
        MagiskInit.hijack, MagiskInit.intercept, MagiskInit.release, h', MS_BIND, MS_REMOUNT,
        MagiskInit.compat_replay, hdt]
    · rw [opsOn_detour E P fs W self pol _ h' hdt hfork hpol, opsOn_hijack, opsOn_release]
      simp [i1, r1, l1.symm, p1, l2.symm]
    · rw [opsOn_detour E P fs W self pol _ h' hdt hfork hpol, opsOn_hijack, opsOn_release]
      simp [i2, r2, l1, p2, e1.symm]
    · rw [opsOn_detour E P fs W self pol _ h' hdt hfork hpol, opsOn_hijack, opsOn_release]
      simp [i3, r3, l2, e1, h', p3]
    · refine ⟨(MagiskInit.preload P fs ++
          [ Call.access P.SELINUX_ENFORCE F_OK false,
            Call.full_read self.compat_path (fs.full_read self.compat_path),
            Call.xmount none "/proc" none MS_REMOUNT (some "hidepid=2,gid=3009"),
            Call.mkfifo (MOCK_COMPAT P) 0o444,
            Call.xmount (some (MOCK_COMPAT P)) self.compat_path none MS_BIND none ] ++
          (self.read_custom_rules fs).2) ++
        (Call.xfork 0 ::
          (MagiskInit.compat_replay P W self (fs.full_read self.compat_path) ++
            (MagiskInit.intercept P W (self.read_custom_rules fs).1 ++
              (MagiskInit.release P W (E.to_bytes (E.load_rules (E.magisk_rules pol)
                (self.read_custom_rules fs).1))).take 8))), ?_⟩
      refine tail_after_mounts _ _ _ _ _ ?_
      rw [calls_detour_child E P fs W self pol h' hdt hfork hpol]
      simp [MagiskInit.release]

/-! ## The mount table: claim C9 -/

theorem stepOps_cons (t : String) (s : Step) (rest : List Step) :
    stepOps t (s :: rest) = stepOps t [s] ++ stepOps t rest := by
  simp only [stepOps, List.filterMap_cons, List.filterMap_nil]
  cases s.mountOp with
  | none => simp
  | some x => by_cases h : x.1 = t <;> simp [h]

theorem stepOps_ctl (t : String) (c : Call) : stepOps t [Step.ctl c] = opsOn t [c] := rfl

theorem stepOps_init (t target : String) (e : MountEntry) :
    stepOps t [Step.init target e] = if target = t then [MountOp.push e] else [] := by
  by_cases h : target = t <;> simp [stepOps, List.filterMap_cons, Step.mountOp, h]

theorem runSchedule_apply (t : String) (sched : List Step) :
    ∀ T : MountTable, runSchedule T sched t = applyOps (stepOps t sched) (T t) := by
  induction sched with
  | nil => intro T; rfl
  | cons s rest ih =>
    intro T
    show runSchedule (Step.apply T s) rest t = _
    rw [ih]
    unfold Step.apply stepOps
    cases hs : s.mountOp with
    | none => simp [List.filterMap_cons, hs]
    | some x =>
      obtain ⟨target, op⟩ := x
      by_cases ht : target = t
      · subst ht
        simp [List.filterMap_cons, hs, applyOps]
      · have ht' : t ≠ target := fun h => ht h.symm
        simp [List.filterMap_cons, hs, ht, Function.update_noteq ht']

theorem initTargets_ctl (c : Call) (rest : List Step) :
    initTargets (Step.ctl c :: rest) = initTargets rest := rfl

theorem initTargets_init (target : String) (e : MountEntry) (rest : List Step) :
    initTargets (Step.init target e :: rest) = target :: initTargets rest := rfl

theorem stepOps_ctl_only (t : String) (sched : List Step)
    (h : ∀ t' ∈ initTargets sched, t' ≠ t) : stepOps t sched = opsOn t (ctlCalls sched) := by
  induction sched with
  | nil => rfl
  | cons s rest ih =>
    cases s with
    | ctl c =>
      rw [initTargets_ctl] at h
      rw [stepOps_cons, stepOps_ctl, ih h]
      exact (opsOn_cons t c (ctlCalls rest)).symm
    | init target e =>
      rw [initTargets_init] at h
      have hne : target ≠ t := h target (List.mem_cons_self _ _)
      rw [stepOps_cons, stepOps_init, if_neg hne,
        ih (fun t' ht' => h t' (List.mem_cons_of_mem _ ht'))]
      rfl

theorem stepOps_init_only (t : String) (sched : List Step)
    (h : opsOn t (ctlCalls sched) = []) : stepOps t sched = stepOps t (initOnly sched) := by
  induction sched with
  | nil => rfl
  | cons s rest ih =>
    cases s with
    | ctl c =>
      have hsplit : opsOn t (ctlCalls (Step.ctl c :: rest)) =
          opsOn t [c] ++ opsOn t (ctlCalls rest) := opsOn_cons t c _
      rw [hsplit, List.append_eq_nil] at h
      rw [stepOps_cons, stepOps_ctl, h.1, ih h.2]
      rfl
    | init target e =>
      have hrest : stepOps t rest = stepOps t (initOnly rest) := ih h
      show stepOps t (Step.init target e :: rest) =
        stepOps t (Step.init target e :: initOnly rest)
      rw [stepOps_cons, stepOps_cons t _ (initOnly rest), hrest]

theorem stepOps_initOnly_nil (t : String) (sched : List Step)
    (h : ∀ t' ∈ initTargets sched, t' ≠ t) : stepOps t (initOnly sched) = [] := by
  induction sched with
  | nil => rfl
  | cons s rest ih =>
    cases s with
    | ctl c => exact ih h
    | init target e =>
      rw [initTargets_init] at h
      have hne : target ≠ t := h target (List.mem_cons_self _ _)
      show stepOps t (Step.init target e :: initOnly rest) = []
      rw [stepOps_cons, stepOps_init, if_neg hne,
        ih (fun t' ht' => h t' (List.mem_cons_of_mem _ ht'))]
      rfl

/-- The mount operations of the child of an engaged hijack on a mount point. -/
theorem opsOn_child {Pol : Type} (E : Engine Pol) (P : Paths) (fs : FileSys)
    (W : Handshake) (self : MagiskInit) (pol : Pol) (t : String)
    (hfork : W.fork_ret = 0)
    (hengaged : ¬ (fs.present P.SELINUX_ENFORCE = false ∧ fs.full_read self.compat_path = ""))
    (hpol : E.from_data W.policy = some pol) :
    opsOn t (self.hijack_sepolicy E P fs W).calls =
      (if fs.present P.SELINUX_ENFORCE = false then
        (if "/proc" = t then [MountOp.remount MS_REMOUNT (some "hidepid=2,gid=3009")]
          else []) ++
        (if self.compat_path = t then [MountOp.push (hijackMount (MOCK_COMPAT P)), MountOp.pop]
          else [])
       else []) ++
      (if P.SELINUX_LOAD = t then [MountOp.push (hijackMount (MOCK_LOAD P))] else []) ++
      (if P.SELINUX_ENFORCE = t then [MountOp.push (hijackMount (MOCK_ENFORCE P))] else []) ++
      (if "/init" = t then [MountOp.pop] else []) ++
      (if P.SELINUX_LOAD = t then [MountOp.pop] else []) ++
      (if P.SELINUX_ENFORCE = t then [MountOp.pop] else []) ++
      (if REAL_SELINUXFS P = t then [MountOp.push selinuxfsMount] else []) := by
  by_cases h : fs.present P.SELINUX_ENFORCE = true
  · rw [opsOn_direct E P fs W self pol _ h hfork hpol, opsOn_hijack, opsOn_release]
    simp [h, selinuxfsMount]
  · have h' : fs.present P.SELINUX_ENFORCE = false := by simpa using h
    have hdt : fs.full_read self.compat_path ≠ "" := fun hdt => hengaged ⟨h', hdt⟩
    rw [opsOn_detour E P fs W self pol _ h' hdt hfork hpol, opsOn_hijack, opsOn_release]
    by_cases h2 : self.compat_path = t <;> simp [h', selinuxfsMount, h2]

/-- C9 (amended): at the exit of the watcher of an engaged hijack whose image
parses, with init mounting on none of the six mount points of the controller,
the mount table is the table of the same boot without the controller except in
three places: selinuxfs is mounted on the private mount point, the topmost
mount on `/init` is gone, and on the detour `/proc` is remounted. On the load
node, the enforce node and the compat node the table is the table on entry:
every bind mount of the controller is undone. -/
theorem hijack_sepolicy_mount_table {Pol : Type} (E : Engine Pol) (P : Paths)
    (fs : FileSys) (W : Handshake) (self : MagiskInit) (pol : Pol)
    (T0 : MountTable) (sched : List Step) (hfork : W.fork_ret = 0)
    (hengaged : ¬ (fs.present P.SELINUX_ENFORCE = false ∧ fs.full_read self.compat_path = ""))
    (hpol : E.from_data W.policy = some pol) (hdistinct : DistinctTargets P self)
    (hsched : ctlCalls sched = (self.hijack_sepolicy E P fs W).calls)
    (hinit : ∀ t ∈ initTargets sched,
      t ∉ ["/init", "/proc", REAL_SELINUXFS P, P.SELINUX_LOAD, P.SELINUX_ENFORCE,
        self.compat_path]) :
    (∀ t, runSchedule T0 sched t =
      if t = REAL_SELINUXFS P then selinuxfsMount :: T0 t
      else if t = "/init" then (T0 t).tail
      else if t = "/proc" ∧ fs.present P.SELINUX_ENFORCE = false then
        (MountOp.remount MS_REMOUNT (some "hidepid=2,gid=3009")).apply (T0 t)
      else runSchedule T0 (initOnly sched) t) ∧
    runSchedule T0 sched P.SELINUX_LOAD = T0 P.SELINUX_LOAD ∧
    runSchedule T0 sched P.SELINUX_ENFORCE = T0 P.SELINUX_ENFORCE ∧
    runSchedule T0 sched self.compat_path = T0 self.compat_path := by
  obtain ⟨⟨i1, i2, i3⟩, ⟨p1, p2, p3⟩, ⟨r1, r2, r3⟩, ⟨l1, l2⟩, e1, ir, pr⟩ :=
    distinct_targets hdistinct
  have hops := fun t => opsOn_child E P fs W self pol t hfork hengaged hpol
  have hown : ∀ t ∈ ["/init", "/proc", REAL_SELINUXFS P, P.SELINUX_LOAD, P.SELINUX_ENFORCE,
      self.compat_path], runSchedule T0 sched t =
        applyOps (opsOn t (self.hijack_sepolicy E P fs W).calls) (T0 t) := by
    intro t ht
    rw [runSchedule_apply, stepOps_ctl_only t sched (fun t' ht' he => hinit t' ht' (he ▸ ht)),
      hsched]
  have hunh : ∀ t ∈ ["/init", "/proc", REAL_SELINUXFS P, P.SELINUX_LOAD, P.SELINUX_ENFORCE,
      self.compat_path], runSchedule T0 (initOnly sched) t = T0 t := by
    intro t ht
    rw [runSchedule_apply,
      stepOps_initOnly_nil t sched (fun t' ht' he => hinit t' ht' (he ▸ ht))]
    rfl
  have hmain : ∀ t, runSchedule T0 sched t =
      if t = REAL_SELINUXFS P then selinuxfsMount :: T0 t
      else if t = "/init" then (T0 t).tail
      else if t = "/proc" ∧ fs.present P.SELINUX_ENFORCE = false then
        (MountOp.remount MS_REMOUNT (some "hidepid=2,gid=3009")).apply (T0 t)
      else runSchedule T0 (initOnly sched) t := by
    intro t
    by_cases hr : t = REAL_SELINUXFS P
    · subst hr
      rw [hown _ (by simp), hops]
      simp [i1, i2, i3, p1, p2, p3, r1, r2, r3, l1, l2, e1, ir, pr, Ne.symm r1, Ne.symm r2,
        Ne.symm r3, applyOps, MountOp.apply]
    · rw [if_neg hr]
      by_cases hi : t = "/init"
      · subst hi
        rw [hown _ (by simp), hops]
        simp [i1, i2, i3, ir, i1.symm, i2.symm, i3.symm, ir.symm, applyOps, MountOp.apply]
      · rw [if_neg hi]
        have hpi : ¬ ("/init" = "/proc") := by decide
        by_cases hp : t = "/proc"
        · subst hp
          rw [hown _ (by simp), hops]
          by_cases h : fs.present P.SELINUX_ENFORCE = false
          · simp [h, p1, p2, p3, pr, p1.symm, p2.symm, p3.symm, pr.symm, applyOps, hpi]
          · simp [h, hunh _ (by simp : "/proc" ∈ _), p1, p2, p3, pr, p1.symm, p2.symm,
              p3.symm, pr.symm, applyOps, hpi]
        · have hnp : ¬ (t = "/proc" ∧ fs.present P.SELINUX_ENFORCE = false) := fun h => hp h.1
          rw [if_neg hnp]
          by_cases hl : t = P.SELINUX_LOAD
          · subst hl
            rw [hunh _ (by simp), hown _ (by simp), hops]
            simp [i1, p1, r1, l1, l2, l1.symm, l2.symm, applyOps, MountOp.apply]
          · by_cases he : t = P.SELINUX_ENFORCE
            · subst he
              rw [hunh _ (by simp), hown _ (by simp), hops]
              simp [i2, p2, r2, l1, l1.symm, e1, e1.symm, applyOps, MountOp.apply]
            · by_cases hc : t = self.compat_path
              · subst hc
                rw [hunh _ (by simp), hown _ (by simp), hops]
                by_cases h : fs.present P.SELINUX_ENFORCE = false <;>
                simp [h, i3, p3, r3, l2, e1, applyOps, MountOp.apply]
              · rw [runSchedule_apply, runSchedule_apply, stepOps_init_only]
                rw [hsched, hops]
                simp [Ne.symm hr, Ne.symm hi, Ne.symm hp, Ne.symm hl, Ne.symm he, Ne.symm hc]
  refine ⟨hmain, ?_, ?_, ?_⟩
  · rw [hmain, if_neg (Ne.symm r1), if_neg (Ne.symm i1), if_neg (fun h => p1 h.1.symm)]
    exact hunh _ (by simp)
  · rw [hmain, if_neg (Ne.symm r2), if_neg (Ne.symm i2), if_neg (fun h => p2 h.1.symm)]
    exact hunh _ (by simp)
  · rw [hmain, if_neg (Ne.symm r3), if_neg (Ne.symm i3), if_neg (fun h => p3 h.1.symm)]
    exact hunh _ (by simp)

/-! ## The monolithic patcher: claims C6 and C7 -/

theorem patch_rules_loop_calls {Pol : Type} (E : Engine Pol) (fs : FileSys) (root : String)
    (entries : List String) :
    ∀ sepol, ∀ c ∈ (MagiskInit.patch_rules_loop E fs root entries sepol).2,
      c ≠ Call.magisk_rules := by
  induction entries with
  | nil => intro sepol c hc; simp [MagiskInit.patch_rules_loop] at hc
  | cons d rest ih =>
    intro sepol c hc
    simp only [MagiskInit.patch_rules_loop] at hc
    split at hc
    · simp only [List.mem_cons] at hc
      rcases hc with h | h | h
      · subst h; simp
      · subst h; simp
      · exact ih _ c h
    · simp only [List.mem_cons] at hc
      rcases hc with h | h
      · subst h; simp
      · exact ih _ c h

theorem patch_custom_rules_calls {Pol : Type} (E : Engine Pol) (fs : FileSys)
    (self : MagiskInit) (sepol : Pol) :
    ∀ c ∈ (self.patch_custom_rules E fs sepol).2, c ≠ Call.magisk_rules := by
  intro c hc
  unfold MagiskInit.patch_custom_rules at hc
  split at hc
  · split at hc
    · simp only [List.mem_cons] at hc
      rcases hc with h | h
      · subst h; simp
      · exact patch_rules_loop_calls E fs _ _ _ c h
    · simp at hc; subst hc; simp
  · simp at hc

theorem patch_rules_loop_unreadable {Pol : Type} (E : Engine Pol) (fs : FileSys)
    (root : String) (entries : List String)
    (h : ∀ d ∈ entries, fs.readable (root ++ "/" ++ d ++ "/sepolicy.rule") = false) :
    ∀ sepol, (MagiskInit.patch_rules_loop E fs root entries sepol).1 = sepol ∧
      ∀ c ∈ (MagiskInit.patch_rules_loop E fs root entries sepol).2, c.isInert = true := by
  induction entries with
  | nil => intro sepol; simp [MagiskInit.patch_rules_loop]
  | cons d rest ih =>
    intro sepol
    have hd := h d (List.mem_cons_self _ _)
    have hrest := ih (fun d' hd' => h d' (List.mem_cons_of_mem _ hd')) sepol
    simp only [MagiskInit.patch_rules_loop, hd, Bool.false_eq_true, if_false]
    refine ⟨hrest.1, ?_⟩
    intro c hc
    simp only [List.mem_cons] at hc
    rcases hc with hc | hc
    · subst hc; rfl
    · exact hrest.2 c hc

theorem patch_custom_rules_unreadable {Pol : Type} (E : Engine Pol) (fs : FileSys)
    (self : MagiskInit) (sepol : Pol)
    (h : self.custom_rules_dir = "" ∨ ∀ entries, fs.dir self.custom_rules_dir = some entries →
      ∀ d ∈ entries, fs.readable (self.custom_rules_dir ++ "/" ++ d ++ "/sepolicy.rule") = false) :
    (self.patch_custom_rules E fs sepol).1 = sepol ∧
      ∀ c ∈ (self.patch_custom_rules E fs sepol).2, c.isInert = true := by
  unfold MagiskInit.patch_custom_rules
  by_cases hroot : self.custom_rules_dir = ""
  · simp [hroot]
  · have h' := h.resolve_left hroot
    simp only [ne_eq, hroot, not_false_eq_true, if_true]
    cases hd : fs.dir self.custom_rules_dir with
    | none =>
      refine ⟨rfl, ?_⟩
      intro c hc
      simp at hc; subst hc; rfl
    | some entries =>
      have := patch_rules_loop_unreadable E fs _ entries (h' entries hd) sepol
      refine ⟨this.1, ?_⟩
      intro c hc
      simp only [List.mem_cons] at hc
      rcases hc with hc | hc
      · subst hc; rfl
      · exact this.2 c hc

theorem full_read_write_file (fs : FileSys) (path bytes : String) :
    (fs.write_file path bytes).full_read path = bytes := by
  unfold FileSys.write_file FileSys.full_read
  cases h : fs.ino path with
  | none => simp
  | some i => simp [h]

theorem full_read_unlink_link (fs : FileSys) (path old dbg : String) (h : path ≠ dbg) :
    ((fs.unlink dbg).link old dbg).full_read path = fs.full_read path := by
  have key : ∀ g : FileSys, g.data = fs.data → g.ino path = fs.ino path →
      g.full_read path = fs.full_read path := by
    intro g hd hi
    simp [FileSys.full_read, hd, hi]
  have hino : (fs.unlink dbg).ino path = fs.ino path := by
    simp [FileSys.unlink, Function.update_noteq h]
  unfold FileSys.link
  cases h1 : (fs.unlink dbg).ino old <;> cases h2 : (fs.unlink dbg).ino dbg
  · exact key _ rfl hino
  · exact key _ rfl hino
  · refine key _ rfl ?_
    show Function.update (fs.unlink dbg).ino dbg _ path = _
    rw [Function.update_noteq h, hino]
  · exact key _ rfl hino

/-- C6, at the failing input: the alias exists, the policy `/sepolicy` is patched
into `/overlay/sepolicy`. After the call the alias is a link to `/sepolicy`, is
not a link to the output, and holds the stock policy, not the patched one. -/
theorem patch_sepolicy_alias_not_output :
    ∃ r, Sample.magiskInit.patch_sepolicy Sample.engine Sample.fsAlias "/sepolicy"
        "/overlay/sepolicy" = some r ∧
      Sample.fsAlias.present "/sepolicy_debug" = true ∧
      Call.to_file "/overlay/sepolicy" "STOCK;magisk" ∈ r.calls ∧
      Call.link "/sepolicy" "/sepolicy_debug" ∈ r.calls ∧
      r.fs.ino "/sepolicy_debug" = r.fs.ino "/sepolicy" ∧
      r.fs.ino "/sepolicy_debug" ≠ r.fs.ino "/overlay/sepolicy" ∧
      r.fs.full_read "/overlay/sepolicy" = "STOCK;magisk" ∧
      r.fs.full_read "/sepolicy_debug" = "STOCK" :=
  ⟨_, rfl, by decide, by decide, by decide, by decide, by decide, by decide, by decide⟩

/-- C7: when the input image loads, `patch_sepolicy` completes; its calls start
with `from_file`, `magisk_rules`, and `magisk_rules` is not called again, so the
baseline is applied once and before every rule fragment; when the rules root is
not configured or no entry of it has a readable fragment, no `load_rule_file`
call is made and the image serialized to the output path is the serialization
of the baseline applied to the loaded image. -/
theorem patch_sepolicy_baseline {Pol : Type} (E : Engine Pol) (fs : FileSys)
    (self : MagiskInit) (inp out : String) (pol : Pol)
    (hload : E.from_file fs inp = some pol) :
    ∃ r rest, self.patch_sepolicy E fs inp out = some r ∧
      r.calls = Call.from_file inp :: Call.magisk_rules :: rest ∧
      Call.magisk_rules ∉ rest ∧
      ((self.custom_rules_dir = "" ∨
          ∀ entries, fs.dir self.custom_rules_dir = some entries → ∀ d ∈ entries,
            fs.readable (self.custom_rules_dir ++ "/" ++ d ++ "/sepolicy.rule") = false) →
        (∀ path, Call.load_rule_file path ∉ r.calls) ∧
        r.sepol = E.magisk_rules pol ∧
        (∃ A B, r.calls = A ++ Call.to_file out (E.to_bytes (E.magisk_rules pol)) :: B ∧
          ∀ c ∈ A ++ B, ∀ path image, c ≠ Call.to_file path image) ∧
        (out ≠ "/sepolicy_debug" →
          r.fs.full_read out = E.to_bytes (E.magisk_rules pol))) := by
  have hcalls := patch_custom_rules_calls E fs self (E.magisk_rules pol)
  have hgoal : ∀ (calls tail : List Call) (fs' : FileSys),
      calls = Call.from_file inp :: Call.magisk_rules ::
        ((self.patch_custom_rules E fs (E.magisk_rules pol)).2 ++
          (Call.to_file out (E.to_bytes (self.patch_custom_rules E fs (E.magisk_rules pol)).1)
            :: tail)) →
      (∀ c ∈ tail, c.isInert = true ∨ (∃ p, c = Call.unlink p) ∨ ∃ p q, c = Call.link p q) →
      (out ≠ "/sepolicy_debug" →
        fs'.full_read out = E.to_bytes (self.patch_custom_rules E fs (E.magisk_rules pol)).1) →
      ∃ r rest,
        some (⟨calls,
          (self.patch_custom_rules E fs (E.magisk_rules pol)).1, fs'⟩ : Patched Pol) = some r ∧
        r.calls = Call.from_file inp :: Call.magisk_rules :: rest ∧
        Call.magisk_rules ∉ rest ∧
        ((self.custom_rules_dir = "" ∨
            ∀ entries, fs.dir self.custom_rules_dir = some entries → ∀ d ∈ entries,
              fs.readable (self.custom_rules_dir ++ "/" ++ d ++ "/sepolicy.rule") = false) →
          (∀ path, Call.load_rule_file path ∉ r.calls) ∧
          r.sepol = E.magisk_rules pol ∧
          (∃ A B, r.calls = A ++ Call.to_file out (E.to_bytes (E.magisk_rules pol)) :: B ∧
            ∀ c ∈ A ++ B, ∀ path image, c ≠ Call.to_file path image) ∧
          (out ≠ "/sepolicy_debug" →
            r.fs.full_read out = E.to_bytes (E.magisk_rules pol))) := by
    intro calls tail fs' hc htail hfs
    subst hc
    refine ⟨_, (self.patch_custom_rules E fs (E.magisk_rules pol)).2 ++
      (Call.to_file out (E.to_bytes (self.patch_custom_rules E fs (E.magisk_rules pol)).1)
        :: tail), rfl, rfl, ?_, ?_⟩
    · intro hmem
      simp only [List.mem_append, List.mem_cons] at hmem
      rcases hmem with hmem | hmem | hmem
      · exact hcalls _ hmem rfl
      · simp at hmem
      · rcases htail _ hmem with h | ⟨p, h⟩ | ⟨p, q, h⟩
        · simp [Call.isInert] at h
        · simp at h
        · simp at h
    · intro hno
      obtain ⟨h1, h2⟩ := patch_custom_rules_unreadable E fs self (E.magisk_rules pol) hno
      refine ⟨?_, h1, ?_, ?_⟩
      · intro path hmem
        simp only [List.mem_append, List.mem_cons, List.not_mem_nil, or_false] at hmem
        rcases hmem with hmem | hmem | hmem | hmem | hmem
        · simp at hmem
        · simp at hmem
        · have := h2 _ hmem; simp [Call.isInert] at this
        · simp at hmem
        · rcases htail _ hmem with h | ⟨p, h⟩ | ⟨p, q, h⟩
          · simp [Call.isInert] at h
          · simp at h
          · simp at h
      · refine ⟨[Call.from_file inp, Call.magisk_rules] ++
          (self.patch_custom_rules E fs (E.magisk_rules pol)).2, tail, ?_, ?_⟩
        · simp [h1]
        · intro c hc path image hceq
          subst hceq
          simp only [List.mem_append, List.mem_cons, List.not_mem_nil, or_false] at hc
          rcases hc with (hc | hc) | hc
          · rcases hc with hc | hc <;> simp at hc
          · have := h2 _ hc; simp [Call.isInert] at this
          · rcases htail _ hc with h | ⟨p, h⟩ | ⟨p, q, h⟩
            · simp [Call.isInert] at h
            · simp at h
            · simp at h
      · intro hout
        show fs'.full_read out = _
        rw [hfs hout, h1]
  unfold MagiskInit.patch_sepolicy
  simp only [hload]
  split
  · refine hgoal _ [ Call.access "/sepolicy_debug" F_OK
        ((fs.write_file out (E.to_bytes
          (self.patch_custom_rules E fs (E.magisk_rules pol)).1)).present "/sepolicy_debug"),
        Call.unlink "/sepolicy_debug", Call.link "/sepolicy" "/sepolicy_debug" ] _
      (by simp) ?_ ?_
    · intro c hc
      simp only [List.mem_cons, List.not_mem_nil, or_false] at hc
      rcases hc with rfl | rfl | rfl
      · exact Or.inl rfl
      · exact Or.inr (Or.inl ⟨_, rfl⟩)
      · exact Or.inr (Or.inr ⟨_, _, rfl⟩)
    · intro hout
      rw [full_read_unlink_link _ _ _ _ hout, full_read_write_file]
  · refine hgoal _ [ Call.access "/sepolicy_debug" F_OK
        ((fs.write_file out (E.to_bytes
          (self.patch_custom_rules E fs (E.magisk_rules pol)).1)).present "/sepolicy_debug") ] _
      (by simp) ?_ ?_
    · intro c hc
      simp only [List.mem_cons, List.not_mem_nil, or_false] at hc
      subst hc
      exact Or.inl rfl
    · intro _
      rw [full_read_write_file]

/-! ## The claims at the sample worlds -/

/-- C9 as stated fails: in a direct hijack during which init mounts nothing, the
table on entry being empty, selinuxfs is still mounted on the private mount
point when the watcher exits, so the table is not the one of the boot without
the controller. -/
theorem mount_table_not_restored :
    ctlCalls Sample.directSchedule = Sample.directOutcome.calls ∧
    Sample.directOutcome.ret = Ret.exited 0 ∧
    initTargets Sample.directSchedule = [] ∧
    runSchedule noMounts Sample.directSchedule (REAL_SELINUXFS Sample.paths) =
      [selinuxfsMount] ∧
    runSchedule noMounts (initOnly Sample.directSchedule) (REAL_SELINUXFS Sample.paths) = [] ∧
    ¬ RestoredAtExit noMounts Sample.directSchedule := by
  have h1 : runSchedule noMounts Sample.directSchedule (REAL_SELINUXFS Sample.paths) =
      [selinuxfsMount] := by decide
  have h2 : runSchedule noMounts (initOnly Sample.directSchedule)
      (REAL_SELINUXFS Sample.paths) = [] := by decide
  refine ⟨by decide, by decide, by decide, h1, h2, ?_⟩
  intro h
  have h3 := congrFun h (REAL_SELINUXFS Sample.paths)
  rw [h1, h2] at h3
  exact absurd h3 (by decide)

/-- The ordering guarantee at the sample compat detour. -/
theorem hijack_sepolicy_load_before_enforce_witness :
    Sample.handshake.fork_ret = 0 ∧
    ¬ (Sample.fsDetour.present Sample.paths.SELINUX_ENFORCE = false ∧
        Sample.fsDetour.full_read Sample.magiskInit.compat_path = "") ∧
    (∀ pre x post, resolve noFds Sample.detourOutcome.calls = pre ++ x :: post →
      x.2 = some (MOCK_ENFORCE Sample.paths) →
      (∃ image, (Call.to_file (REAL_SELINUXFS Sample.paths ++ "/load") image, none) ∈ pre) ∧
      ∀ y ∈ pre, y.2 ≠ some (MOCK_ENFORCE Sample.paths)) ∧
    (∀ pol, Sample.engine.from_data Sample.handshake.policy = some pol →
      ∃ A B C, resolve noFds Sample.detourOutcome.calls =
        A ++ (Call.to_file (REAL_SELINUXFS Sample.paths ++ "/load")
                (Sample.engine.to_bytes (Sample.engine.load_rules
                  (Sample.engine.magisk_rules pol)
                  (RuleBundle.ofRoot Sample.fsDetour Sample.magiskInit.custom_rules_dir))),
                none) ::
          B ++ (Call.xwrite Sample.handshake.fd_enforce Sample.handshake.enforce
                  Sample.handshake.enforce.length,
                 if 0 ≤ Sample.handshake.fd_enforce then some (MOCK_ENFORCE Sample.paths)
                 else none) :: C ∧
        ∀ y ∈ A ++ B ++ C, y.2 ≠ some (MOCK_ENFORCE Sample.paths)) :=
  ⟨rfl, by decide,
    hijack_sepolicy_load_before_enforce Sample.engine Sample.paths Sample.fsDetour
      Sample.handshake Sample.magiskInit rfl (by decide)⟩

/-- The frame of the negative probe at the sample device without enforce node
and without fragment. -/
theorem hijack_sepolicy_no_hijack_frame_witness :
    Sample.fsNone.present Sample.paths.SELINUX_ENFORCE = false ∧
    Sample.fsNone.full_read Sample.magiskInit.compat_path = "" ∧
    Sample.noneOutcome.ret = Ret.returned false ∧
    Sample.noneOutcome.mount_list = Sample.magiskInit.mount_list ∧
    ∀ c ∈ Sample.noneOutcome.calls,
      c.mountOp = none ∧ (∀ path mode, c ≠ Call.mkfifo path mode) ∧
      (∀ ret, c ≠ Call.xfork ret) :=
  ⟨by decide, by decide,
    hijack_sepolicy_no_hijack_frame Sample.engine Sample.paths Sample.fsNone
      Sample.handshake Sample.magiskInit (by decide) (by decide)⟩

/-- The compat replay at the sample compat detour, whose fragment is
`vendor,fstab`. -/
theorem hijack_sepolicy_compat_replay_witness :
    Sample.handshake.fork_ret = 0 ∧
    Sample.fsDetour.present Sample.paths.SELINUX_ENFORCE = false ∧
    Sample.fsDetour.full_read Sample.magiskInit.compat_path ≠ "" ∧
    0 ≤ Sample.handshake.fd_compat ∧
    (∃ A B C, Sample.detourOutcome.calls =
        A ++ Call.full_read Sample.magiskInit.compat_path
              (Sample.fsDetour.full_read Sample.magiskInit.compat_path) ::
          B ++ Call.xmount (some (MOCK_COMPAT Sample.paths)) Sample.magiskInit.compat_path
                none MS_BIND none :: C ∧
        ∀ c ∈ A, c.mountOp = none) ∧
    (resolve noFds Sample.detourOutcome.calls).filter
        (fun x => decide (x.2 = some (MOCK_COMPAT Sample.paths))) =
      [ (Call.xwrite Sample.handshake.fd_compat
          (Sample.fsDetour.full_read Sample.magiskInit.compat_path)
          (Sample.fsDetour.full_read Sample.magiskInit.compat_path).length,
          some (MOCK_COMPAT Sample.paths)) ] ∧
    pipeContent (MOCK_COMPAT Sample.paths) Sample.detourOutcome.calls =
      Sample.fsDetour.full_read Sample.magiskInit.compat_path ∧
    (Sample.fsDetour.full_read Sample.magiskInit.compat_path = "vendor,fstab" →
      pipeContent (MOCK_COMPAT Sample.paths) Sample.detourOutcome.calls = "vendor,fstab") :=
  ⟨rfl, by decide, by decide, by decide,
    hijack_sepolicy_compat_replay Sample.engine Sample.paths Sample.fsDetour
      Sample.handshake Sample.magiskInit rfl (by decide) (by decide) (by decide)⟩

/-- The baseline-only merge at the sample device with the debug alias, whose
rules root cannot be opened. -/
theorem patch_sepolicy_baseline_witness :
    Sample.engine.from_file Sample.fsAlias "/sepolicy" = some ["STOCK"] ∧
    ∃ r rest, Sample.magiskInit.patch_sepolicy Sample.engine Sample.fsAlias "/sepolicy"
        "/sepolicy" = some r ∧
      r.calls = Call.from_file "/sepolicy" :: Call.magisk_rules :: rest ∧
      Call.magisk_rules ∉ rest ∧
      ((Sample.magiskInit.custom_rules_dir = "" ∨
          ∀ entries, Sample.fsAlias.dir Sample.magiskInit.custom_rules_dir = some entries →
            ∀ d ∈ entries, Sample.fsAlias.readable
              (Sample.magiskInit.custom_rules_dir ++ "/" ++ d ++ "/sepolicy.rule") = false) →
        (∀ path, Call.load_rule_file path ∉ r.calls) ∧
        r.sepol = Sample.engine.magisk_rules ["STOCK"] ∧
        (∃ A B, r.calls = A ++ Call.to_file "/sepolicy"
            (Sample.engine.to_bytes (Sample.engine.magisk_rules ["STOCK"])) :: B ∧
          ∀ c ∈ A ++ B, ∀ path image, c ≠ Call.to_file path image) ∧
        ("/sepolicy" ≠ "/sepolicy_debug" →
          r.fs.full_read "/sepolicy" =
            Sample.engine.to_bytes (Sample.engine.magisk_rules ["STOCK"]))) :=
  ⟨by decide,
    patch_sepolicy_baseline Sample.engine Sample.fsAlias Sample.magiskInit "/sepolicy"
      "/sepolicy" ["STOCK"] (by decide)⟩

/-- C8 as stated fails: in a direct hijack (enforce node present, fork returned
0, the six mount points different) whose image the engine cannot parse, the
load pipe and the enforce pipe are bind-mounted before the fork, the watcher
ends on line 140 without exiting, and its trace holds no unmount at all: the
only mount operation on the load node and on the enforce node is the bind
mount, so neither HijackPoint is unmounted once. -/
theorem hijack_points_left_mounted :
    Sample.fsDirect.present Sample.paths.SELINUX_ENFORCE = true ∧
    Sample.handshakeUnparsable.fork_ret = 0 ∧
    Sample.engine.from_data Sample.handshakeUnparsable.policy = none ∧
    DistinctTargets Sample.paths Sample.magiskInit ∧
    Sample.crashOutcome.ret = Ret.crashed ∧
    Sample.crashOutcome.calls.filterMap Call.bindMount =
      [ (MOCK_LOAD Sample.paths, Sample.paths.SELINUX_LOAD),
        (MOCK_ENFORCE Sample.paths, Sample.paths.SELINUX_ENFORCE) ] ∧
    opsOn Sample.paths.SELINUX_LOAD Sample.crashOutcome.calls =
      [MountOp.push (hijackMount (MOCK_LOAD Sample.paths))] ∧
    opsOn Sample.paths.SELINUX_ENFORCE Sample.crashOutcome.calls =
      [MountOp.push (hijackMount (MOCK_ENFORCE Sample.paths))] ∧
    (∀ c ∈ Sample.crashOutcome.calls,
      c ≠ Call.xumount2 Sample.paths.SELINUX_LOAD MNT_DETACH ∧
      c ≠ Call.xumount2 Sample.paths.SELINUX_ENFORCE MNT_DETACH) ∧
    ¬ (opsOn Sample.paths.SELINUX_LOAD Sample.crashOutcome.calls =
        [MountOp.push (hijackMount (MOCK_LOAD Sample.paths)), MountOp.pop] ∧
       opsOn Sample.paths.SELINUX_ENFORCE Sample.crashOutcome.calls =
        [MountOp.push (hijackMount (MOCK_ENFORCE Sample.paths)), MountOp.pop]) :=
  ⟨by decide, rfl, by decide, by unfold DistinctTargets; decide, by decide, by decide,
    by decide, by decide, by decide, by decide⟩

/-- The HijackPoints at the sample compat detour. -/
theorem hijack_sepolicy_hijack_points_witness :
    Sample.handshake.fork_ret = 0 ∧
    ¬ (Sample.fsDetour.present Sample.paths.SELINUX_ENFORCE = false ∧
        Sample.fsDetour.full_read Sample.magiskInit.compat_path = "") ∧
    Sample.engine.from_data Sample.handshake.policy = some ["POLICY"] ∧
    DistinctTargets Sample.paths Sample.magiskInit ∧
    Sample.detourOutcome.calls.filterMap Call.bindMount =
      (if Sample.fsDetour.present Sample.paths.SELINUX_ENFORCE then []
       else [(MOCK_COMPAT Sample.paths, Sample.magiskInit.compat_path)]) ++
        [ (MOCK_LOAD Sample.paths, Sample.paths.SELINUX_LOAD),
          (MOCK_ENFORCE Sample.paths, Sample.paths.SELINUX_ENFORCE) ] ∧
    opsOn Sample.paths.SELINUX_LOAD Sample.detourOutcome.calls =
      [MountOp.push (hijackMount (MOCK_LOAD Sample.paths)), MountOp.pop] ∧
    opsOn Sample.paths.SELINUX_ENFORCE Sample.detourOutcome.calls =
      [MountOp.push (hijackMount (MOCK_ENFORCE Sample.paths)), MountOp.pop] ∧
    opsOn Sample.magiskInit.compat_path Sample.detourOutcome.calls =
      (if Sample.fsDetour.present Sample.paths.SELINUX_ENFORCE then []
       else [MountOp.push (hijackMount (MOCK_COMPAT Sample.paths)), MountOp.pop]) ∧
    ∃ A, Sample.detourOutcome.calls =
        A ++ [ Call.xwrite Sample.handshake.fd_enforce Sample.handshake.enforce
                 Sample.handshake.enforce.length,
               Call.close Sample.handshake.fd_enforce, Call.exit 0 ] ∧
      ∀ t, opsOn t A = opsOn t Sample.detourOutcome.calls :=
  ⟨rfl, by decide, by decide, by unfold DistinctTargets; decide,
    hijack_sepolicy_hijack_points Sample.engine Sample.paths Sample.fsDetour
      Sample.handshake Sample.magiskInit ["POLICY"] rfl (by decide) (by decide)
      (by unfold DistinctTargets; decide)⟩

/-- The mount table at the exit of the watcher of the sample compat detour,
during which init mounts selinuxfs on `/sys/fs/selinux`. -/
theorem hijack_sepolicy_mount_table_witness :
    Sample.handshake.fork_ret = 0 ∧
    ¬ (Sample.fsDetour.present Sample.paths.SELINUX_ENFORCE = false ∧
        Sample.fsDetour.full_read Sample.magiskInit.compat_path = "") ∧
    Sample.engine.from_data Sample.handshake.policy = some ["POLICY"] ∧
    DistinctTargets Sample.paths Sample.magiskInit ∧
    ctlCalls Sample.detourSchedule = Sample.detourOutcome.calls ∧
    (∀ t ∈ initTargets Sample.detourSchedule,
      t ∉ ["/init", "/proc", REAL_SELINUXFS Sample.paths, Sample.paths.SELINUX_LOAD,
        Sample.paths.SELINUX_ENFORCE, Sample.magiskInit.compat_path]) ∧
    (∀ t, runSchedule noMounts Sample.detourSchedule t =
      if t = REAL_SELINUXFS Sample.paths then selinuxfsMount :: noMounts t
      else if t = "/init" then (noMounts t).tail
      else if t = "/proc" ∧ Sample.fsDetour.present Sample.paths.SELINUX_ENFORCE = false then
        (MountOp.remount MS_REMOUNT (some "hidepid=2,gid=3009")).apply (noMounts t)
      else runSchedule noMounts (initOnly Sample.detourSchedule) t) ∧
    runSchedule noMounts Sample.detourSchedule Sample.paths.SELINUX_LOAD =
      noMounts Sample.paths.SELINUX_LOAD ∧
    runSchedule noMounts Sample.detourSchedule Sample.paths.SELINUX_ENFORCE =
      noMounts Sample.paths.SELINUX_ENFORCE ∧
    runSchedule noMounts Sample.detourSchedule Sample.magiskInit.compat_path =
      noMounts Sample.magiskInit.compat_path :=
  ⟨rfl, by decide, by decide, by unfold DistinctTargets; decide, by decide, by decide,
    hijack_sepolicy_mount_table Sample.engine Sample.paths Sample.fsDetour
      Sample.handshake Sample.magiskInit ["POLICY"] noMounts Sample.detourSchedule
      rfl (by decide) (by decide) (by unfold DistinctTargets; decide) (by decide)
      (by decide)⟩

/-- The enforce-node pre-open at the sample compat detour. -/
theorem hijack_sepolicy_enforce_open_before_teardown_witness :
    Sample.handshake.fork_ret = 0 ∧
    ¬ (Sample.fsDetour.present Sample.paths.SELINUX_ENFORCE = false ∧
        Sample.fsDetour.full_read Sample.magiskInit.compat_path = "") ∧
    Sample.engine.from_data Sample.handshake.policy = some ["POLICY"] ∧
    Sample.magiskInit.compat_path ≠ "/init" ∧
    Sample.magiskInit.compat_path ≠ Sample.paths.SELINUX_LOAD ∧
    Sample.magiskInit.compat_path ≠ Sample.paths.SELINUX_ENFORCE ∧
    (∃ A, Sample.detourOutcome.calls =
        A ++
        [ Call.xopen (MOCK_LOAD Sample.paths) O_RDONLY Sample.handshake.fd_load,
          Call.fd_full_read Sample.handshake.fd_load Sample.handshake.policy,
          Call.close Sample.handshake.fd_load,
          Call.from_data Sample.handshake.policy Sample.handshake.policy.length,
          Call.magisk_rules,
          Call.load_rules (RuleBundle.ofRoot Sample.fsDetour Sample.magiskInit.custom_rules_dir),
          Call.xopen (MOCK_ENFORCE Sample.paths) O_WRONLY Sample.handshake.fd_enforce,
          Call.umount2 "/init" MNT_DETACH,
          Call.xumount2 Sample.paths.SELINUX_LOAD MNT_DETACH,
          Call.xumount2 Sample.paths.SELINUX_ENFORCE MNT_DETACH,
          Call.xmkdir (REAL_SELINUXFS Sample.paths) 0o755,
          Call.xmount (some "selinuxfs") (REAL_SELINUXFS Sample.paths) (some "selinuxfs") 0
            none,
          Call.to_file (REAL_SELINUXFS Sample.paths ++ "/load")
            (Sample.engine.to_bytes (Sample.engine.load_rules
              (Sample.engine.magisk_rules ["POLICY"])
              (RuleBundle.ofRoot Sample.fsDetour Sample.magiskInit.custom_rules_dir))),
          Call.full_read Sample.paths.SELINUX_ENFORCE Sample.handshake.enforce,
          Call.xwrite Sample.handshake.fd_enforce Sample.handshake.enforce
            Sample.handshake.enforce.length,
          Call.close Sample.handshake.fd_enforce,
          Call.exit 0 ] ∧
        ∀ c ∈ A, c.mountOp ≠ some ("/init", MountOp.pop) ∧
          c.mountOp ≠ some (Sample.paths.SELINUX_LOAD, MountOp.pop) ∧
          c.mountOp ≠ some (Sample.paths.SELINUX_ENFORCE, MountOp.pop)) ∧
    (Call.xwrite Sample.handshake.fd_enforce Sample.handshake.enforce
        Sample.handshake.enforce.length,
      if 0 ≤ Sample.handshake.fd_enforce then some (MOCK_ENFORCE Sample.paths) else none) ∈
        resolve noFds Sample.detourOutcome.calls :=
  ⟨rfl, by decide, by decide, by decide, by decide, by decide,
    hijack_sepolicy_enforce_open_before_teardown Sample.engine Sample.paths Sample.fsDetour
      Sample.handshake Sample.magiskInit ["POLICY"] rfl (by decide) (by decide) (by decide)
      (by decide) (by decide)⟩
